import Mathlib

/-!
Shallow embedding of the AeroIntel analytical core (backend/app of the
UottawaHack-8-AeroIntel repository) and verification of its specification
claims.

Conventions of the embedding:
* Python `float` values that the code manipulates exactly (thresholds,
  degrees, distances, severities) are modelled as `ℚ`; `int` as `ℤ`.
* The transcendental haversine distance `great_circle_nm` is not exactly
  representable; every definition that consumes it is parametrised by a
  distance oracle `dist : (ℚ × ℚ) → (ℚ × ℚ) → ℚ`, mirroring its call sites.
* Python `dict` (insertion-ordered) is modelled as an association list with
  insertion-ordered keys; `set` as a duplicate-free list (only cardinality,
  minimum and maximum of sets are observed by the code).
* Python's stable `list.sort(key=...)` is modelled by a stable insertion
  sort `stableSort keep` where `keep y x` says an earlier element `y` stays
  in front of a later element `x`.
* `round(x, 4)` is modelled as round-half-to-even on exact rationals.
* Fallible functions (`raise ValueError`) return `Except String`.
-/

namespace AeroIntel

/-! ### Generic helpers: rounding, stable sort, insertion-ordered dicts -/

/-- Round to the nearest integer, ties to even (Python's `round`). -/
def roundHalfEven (q : ℚ) : ℤ :=
  let f : ℤ := ⌊q⌋
  let r : ℚ := q - (f : ℚ)
  if r < 1/2 then f
  else if 1/2 < r then f + 1
  else if f % 2 = 0 then f else f + 1

/-- Python `round(q, 4)`. -/
def round4 (q : ℚ) : ℚ := ((roundHalfEven (q * 10000) : ℤ) : ℚ) / 10000

/-- Insert `x` into `l`, keeping every `y` with `keep y x = true` in front of
`x`.  Used by `stableSort`. -/
def insertKeep (keep : α → α → Bool) (x : α) : List α → List α
  | [] => [x]
  | y :: ys => if keep y x then y :: insertKeep keep x ys else x :: y :: ys

/-- Stable sort: processes the list left to right, inserting each element
after all already-placed elements `y` with `keep y x = true`.  With
`keep y x = (key x ≤ key y)` this is Python's stable descending
`sort(key=..., reverse=True)`; with `keep y x = (key y ≤ key x)` the stable
ascending `sort(key=...)`. -/
def stableSort (keep : α → α → Bool) (l : List α) : List α :=
  l.foldl (fun acc x => insertKeep keep x acc) []

/-- `defaultdict(list)`-style append: `d[k].append(v)`, creating `d[k] = [v]`
at the end (insertion order) when the key is new. -/
def dictAppend [DecidableEq κ] (d : List (κ × List α)) (k : κ) (v : α) :
    List (κ × List α) :=
  match d with
  | [] => [(k, [v])]
  | (k', vs) :: rest =>
    if k' = k then (k', vs ++ [v]) :: rest else (k', vs) :: dictAppend rest k v

/-- `d.setdefault(k, dflt)` followed by an in-place update `f`. -/
def dictUpdate [DecidableEq κ] (d : List (κ × α)) (k : κ) (dflt : α) (f : α → α) :
    List (κ × α) :=
  match d with
  | [] => [(k, f dflt)]
  | (k', v) :: rest =>
    if k' = k then (k', f v) :: rest else (k', v) :: dictUpdate rest k dflt f

/-- `d[k] = v` on an insertion-ordered dict. -/
def dictSet [DecidableEq κ] (d : List (κ × α)) (k : κ) (v : α) : List (κ × α) :=
  match d with
  | [] => [(k, v)]
  | (k', v') :: rest =>
    if k' = k then (k', v) :: rest else (k', v') :: dictSet rest k v

/-- `set.add`: append if not already present (only cardinality and extrema of
the modelled sets are observed, so list order is immaterial). -/
def setInsert [DecidableEq α] (s : List α) (x : α) : List α :=
  if x ∈ s then s else s ++ [x]

/-- `set.update(xs)`. -/
def setUnion [DecidableEq α] (s : List α) (xs : List α) : List α :=
  xs.foldl setInsert s

/-- Python `sorted((a, b))` for two strings: swap iff the second compares
smaller (code-point lexicographic `<`). -/
def sortedPair (a b : String) : String × String :=
  if b < a then (b, a) else (a, b)

/-! ### `parsing.py` -/

def isWs (c : Char) : Bool := c.isWhitespace

/-- Python `str.strip()` on a char list. -/
def trimWs (l : List Char) : List Char :=
  ((l.dropWhile isWs).reverse.dropWhile isWs).reverse

/-- Worker for `splitWs`; `acc` is the current (reversed) token. -/
def splitWsGo : List Char → List Char → List (List Char)
  | [], acc => if acc.isEmpty then [] else [acc.reverse]
  | c :: cs, acc =>
    if isWs c then
      if acc.isEmpty then splitWsGo cs [] else acc.reverse :: splitWsGo cs []
    else splitWsGo cs (c :: acc)

/-- Python `str.split()` (split on whitespace runs, drop empty tokens). -/
def splitWs (l : List Char) : List (List Char) := splitWsGo l []

/-- Digit run to a natural number. -/
def digitsToNat (ds : List Char) : ℕ :=
  ds.foldl (fun n c => 10 * n + (c.toNat - 48)) 0

/-- Parse the regex fragment `\d+(\.\d+)?` (maximal munch; exact decimal
value as a rational) returning the value and the unconsumed suffix. -/
def parseUDecimal (l : List Char) : Option (ℚ × List Char) :=
  let ds := l.takeWhile Char.isDigit
  let rest := l.dropWhile Char.isDigit
  if ds.isEmpty then none
  else
    match rest with
    | '.' :: rest2 =>
      let fs := rest2.takeWhile Char.isDigit
      let rest3 := rest2.dropWhile Char.isDigit
      if fs.isEmpty then none
      else some ((digitsToNat ds : ℚ) + (digitsToNat fs : ℚ) / (10 : ℚ) ^ fs.length, rest3)
    | _ => some ((digitsToNat ds : ℚ), rest)

/-- The anchored waypoint regex
`^\d+(\.\d+)?[NS]/\d+(\.\d+)?[EW]$` (case-insensitive), returning the two
unsigned magnitudes and the two direction flags (south?, west?). -/
def parseWaypointRaw (tok : List Char) : Option (ℚ × Bool × ℚ × Bool) :=
  match parseUDecimal tok with
  | none => none
  | some (latMag, rest) =>
    match rest with
    | c1 :: '/' :: rest2 =>
      if c1 = 'N' ∨ c1 = 'n' ∨ c1 = 'S' ∨ c1 = 's' then
        match parseUDecimal rest2 with
        | none => none
        | some (lonMag, rest3) =>
          match rest3 with
          | [c2] =>
            if c2 = 'E' ∨ c2 = 'e' ∨ c2 = 'W' ∨ c2 = 'w' then
              some (latMag, c1 = 'S' ∨ c1 = 's', lonMag, c2 = 'W' ∨ c2 = 'w')
            else none
          | _ => none
      else none
    | _ => none

/-- `parse_waypoint`: strip the token, match the regex, negate latitude for
`S` and longitude for `W`.  No range validation is performed (as in the
source). -/
def parse_waypoint (token : String) : Except String (ℚ × ℚ) :=
  match parseWaypointRaw (trimWs token.toList) with
  | none => .error ("invalid waypoint: " ++ token)
  | some (latMag, south, lonMag, west) =>
    .ok ((if south then -latMag else latMag), (if west then -lonMag else lonMag))

/-- `get_airport_coords`, parametrised by the injected airport coordinate
map (the spec treats the embedded Canadian table as injected data).  Falsy
codes (`None` or `""`) yield `None`; otherwise the stripped upper-cased code
is looked up. -/
def get_airport_coords (airports : String → Option (ℚ × ℚ)) :
    Option String → Option (ℚ × ℚ)
  | none => none
  | some code =>
    if code = "" then none
    else airports (String.mk ((trimWs code.toList).map Char.toUpper))

/-- `parse_route`: tokenize on whitespace, parse every token, then expand a
single-waypoint route using the departure/arrival airports. -/
def parse_route (airports : String → Option (ℚ × ℚ)) (route_str : String)
    (dep arr : Option String) : Except String (List (ℚ × ℚ)) :=
  -- `if not route_str or not route_str.strip()`: true iff every char is whitespace
  if route_str.toList.all isWs then .error "route is empty"
  else do
    let points ← (splitWs route_str.toList).mapM
      (fun tok => parse_waypoint (String.mk tok))
    let points2 ←
      match points with
      | [p] =>
        match get_airport_coords airports dep, get_airport_coords airports arr with
        | some d, some a => Except.ok [d, p, a]
        | some d, none => Except.ok [d, p]
        | none, some a => Except.ok [p, a]
        | none, none => Except.error "route must include at least two waypoints"
      | _ => Except.ok points
    if points2.length < 2 then .error "route must include at least two waypoints"
    else .ok points2

/-! ### `models.py` -/

structure AircraftConstraints where
  min_speed_kt : ℤ
  max_speed_kt : ℤ
  min_altitude_ft : ℤ
  max_altitude_ft : ℤ
deriving DecidableEq

def AIRCRAFT_CONSTRAINTS : List (String × AircraftConstraints) :=
  [("jet", ⟨200, 550, 10000, 45000⟩),
   ("turboprop", ⟨150, 450, 5000, 41000⟩),
   ("prop", ⟨90, 220, 1000, 18000⟩),
   ("helicopter", ⟨60, 160, 0, 10000⟩)]

/-- `AIRCRAFT_CONSTRAINTS[category]`.  The classifier only ever produces the
four keys above, so the default is unreachable. -/
def constraintsFor (category : String) : AircraftConstraints :=
  ((AIRCRAFT_CONSTRAINTS.lookup category).getD ⟨200, 550, 10000, 45000⟩)

/-- `KNOWN_AIRCRAFT`, in dict insertion order (Python 3.7+ dicts iterate in
insertion order). -/
def KNOWN_AIRCRAFT : List (String × String) :=
  [("boeing 787-9", "widebody"),
   ("boeing 787", "widebody"),
   ("787-9", "widebody"),
   ("787", "widebody"),
   ("boeing 777-300er", "widebody"),
   ("boeing 777", "widebody"),
   ("777-300er", "widebody"),
   ("777", "widebody"),
   ("airbus a330", "widebody"),
   ("a330", "widebody"),
   ("boeing 737-800", "narrowbody"),
   ("boeing 737 max 8", "narrowbody"),
   ("boeing 737 max", "narrowbody"),
   ("boeing 737", "narrowbody"),
   ("737-800", "narrowbody"),
   ("737 max 8", "narrowbody"),
   ("737 max", "narrowbody"),
   ("737", "narrowbody"),
   ("airbus a320", "narrowbody"),
   ("airbus a321", "narrowbody"),
   ("airbus a220-300", "narrowbody"),
   ("airbus a220", "narrowbody"),
   ("a320", "narrowbody"),
   ("a321", "narrowbody"),
   ("a220-300", "narrowbody"),
   ("a220", "narrowbody"),
   ("dash 8-400", "regional"),
   ("dash 8", "regional"),
   ("dash-8", "regional"),
   ("q400", "regional"),
   ("embraer e195-e2", "regional"),
   ("embraer e195", "regional"),
   ("e195-e2", "regional"),
   ("e195", "regional"),
   ("embraer", "regional"),
   ("crj", "regional"),
   ("bombardier crj", "regional"),
   ("boeing 767-300f", "cargo"),
   ("boeing 767f", "cargo"),
   ("767-300f", "cargo"),
   ("767f", "cargo"),
   ("boeing 757-200f", "cargo"),
   ("boeing 757f", "cargo"),
   ("757-200f", "cargo"),
   ("757f", "cargo"),
   ("airbus a300-600f", "cargo"),
   ("airbus a300f", "cargo"),
   ("a300-600f", "cargo"),
   ("a300f", "cargo")]

def CATEGORY_TO_CONSTRAINTS : List (String × String) :=
  [("widebody", "jet"),
   ("narrowbody", "jet"),
   ("regional", "turboprop"),
   ("cargo", "jet")]

/-- `(plane_type or "").strip().lower()` as a char list. -/
def normalizeType (s : String) : List Char :=
  (trimWs s.toList).map Char.toLower

/-- Python `pat in s` substring test. -/
def isSubOf (pat : List Char) : List Char → Bool
  | [] => pat.isEmpty
  | c :: cs => pat.isPrefixOf (c :: cs) || isSubOf pat cs

/-- Keyword fallback of `_classify_aircraft` (runs when no table entry
matches). -/
def classifyFallback (normalized : List Char) : String × Bool :=
  if isSubOf "heli".toList normalized then ("helicopter", true)
  else if isSubOf "turboprop".toList normalized
      || (isSubOf "turbo".toList normalized && isSubOf "prop".toList normalized) then
    ("turboprop", true)
  else if isSubOf "prop".toList normalized || isSubOf "piston".toList normalized then
    ("prop", true)
  else if isSubOf "jet".toList normalized then ("jet", true)
  else if isSubOf "boeing".toList normalized || isSubOf "airbus".toList normalized then
    ("jet", true)
  else if "b7".toList.isPrefixOf normalized || "a3".toList.isPrefixOf normalized
      || "a2".toList.isPrefixOf normalized then ("jet", true)
  else ("jet", false)

/-- `_classify_aircraft` from `models.py`: scan `KNOWN_AIRCRAFT` in table
(insertion) order for the first key occurring as a substring of the
normalized descriptor; otherwise fall back to keyword heuristics. -/
def classify_aircraft (plane_type : String) : String × Bool :=
  let normalized := normalizeType plane_type
  if normalized.isEmpty then ("jet", false)
  else
    match KNOWN_AIRCRAFT.find? (fun kv => isSubOf kv.1.toList normalized) with
    | some kv => ((CATEGORY_TO_CONSTRAINTS.lookup kv.2).getD "jet", true)
    | none => classifyFallback normalized

structure FlightPlan where
  acid : String
  plane_type : String
  route : String
  altitude_ft : ℤ
  departure_time : ℤ
  speed_kt : ℤ
  passengers : ℤ
  is_cargo : Bool
  departure_airport : Option String
  arrival_airport : Option String
deriving DecidableEq

structure TrajectoryPoint where
  acid : String
  lat : ℚ
  lon : ℚ
  altitude_ft : ℤ
  timestamp : ℤ
  speed_kt : Option ℤ
deriving DecidableEq

structure ConflictEvent where
  flight_a : String
  flight_b : String
  start_time : ℤ
  end_time : ℤ
  min_horizontal_nm : ℚ
  min_vertical_ft : ℤ
  severity : ℚ
deriving DecidableEq

structure HotspotCell where
  lat_bucket : ℤ
  lon_bucket : ℤ
  altitude_band : ℤ
  time_start : ℤ
  time_end : ℤ
  peak_density : ℤ
  occupancy_minutes : ℤ
  unique_flights : ℤ
  score : ℚ
deriving DecidableEq

structure ResolutionCandidate where
  flight_id : String
  action_type : String
  summary : String
  delta_altitude_ft : Option ℤ
  delta_speed_kt : Option ℤ
  delta_departure_min : Option ℤ
  reroute_waypoint : Option String
  score : ℚ
  benefit : ℚ
  cost : ℚ
deriving DecidableEq

/-- `validate_flight_plan` from `models.py`: one informational issue when the
descriptor was not matched, one issue for out-of-band speed, one for
out-of-band altitude. -/
def validate_flight_plan (flight : FlightPlan) : List String :=
  let cm := classify_aircraft flight.plane_type
  let category := cm.1
  let matched := cm.2
  let c := constraintsFor category
  let issues1 : List String :=
    if matched then []
    else [flight.acid ++ ": unknown plane type '" ++ flight.plane_type ++
      "', defaulting to '" ++ category ++ "' constraints"]
  let issues2 := issues1 ++
    (if flight.speed_kt < c.min_speed_kt ∨ c.max_speed_kt < flight.speed_kt then
      [flight.acid ++ ": speed " ++ toString flight.speed_kt ++ "kt outside " ++
        toString c.min_speed_kt ++ "-" ++ toString c.max_speed_kt ++ "kt"]
    else [])
  issues2 ++
    (if flight.altitude_ft < c.min_altitude_ft ∨ c.max_altitude_ft < flight.altitude_ft then
      [flight.acid ++ ": altitude " ++ toString flight.altitude_ft ++ "ft outside " ++
        toString c.min_altitude_ft ++ "-" ++ toString c.max_altitude_ft ++ "ft"]
    else [])

/-! ### `trajectory.py`

`great_circle_nm` (haversine on floats) is modelled by the distance oracle
parameter `gc`/`dist` of every consumer. -/

/-- `_interpolate`: linear chord interpolation. -/
def interpolate (a b : ℚ × ℚ) (t : ℚ) : ℚ × ℚ :=
  (a.1 + (b.1 - a.1) * t, a.2 + (b.2 - a.2) * t)

/-- `_segment_distances`: consecutive great-circle distances. -/
def segmentDistances (gc : (ℚ × ℚ) → (ℚ × ℚ) → ℚ) : List (ℚ × ℚ) → List ℚ
  | [] => []
  | [_] => []
  | a :: b :: rest => gc a b :: segmentDistances gc (b :: rest)

/-- Segments as `(length, start, end)` triples; `segment_index` of the source
corresponds to the number of already-consumed triples. -/
def zipSegs (gc : (ℚ × ℚ) → (ℚ × ℚ) → ℚ) : List (ℚ × ℚ) → List (ℚ × (ℚ × ℚ) × (ℚ × ℚ))
  | [] => []
  | [_] => []
  | a :: b :: rest => (gc a b, a, b) :: zipSegs gc (b :: rest)

/-- Loop state of `build_trajectory`: remaining segments (head = current),
`segment_progress` and `segment_remaining`. -/
structure SegState where
  segs : List (ℚ × (ℚ × ℚ) × (ℚ × ℚ))
  prog : ℚ
  rem : ℚ
deriving DecidableEq

/-- The inner `while segment_index < len(distances) and segment_remaining <= 0`
advance loop.  The fuel argument (always supplied ≥ remaining segment count
+ 1) only bounds the recursion; the loop consumes at most one segment per
iteration. -/
def advanceSegs : ℕ → SegState → SegState
  | 0, st => st
  | fuel + 1, st =>
    match st.segs with
    | [] => st
    | _ :: rest =>
      if st.rem ≤ 0 then
        match rest with
        | [] => ⟨[], st.prog, st.rem⟩
        | (d, a, b) :: rest2 => advanceSegs fuel ⟨(d, a, b) :: rest2, 0, d⟩
      else st

/-- Position of the current sample: past the last segment, clamp to the final
waypoint; otherwise interpolate along the current segment with
`t = min(1, progress / max(1e-6, length))`. -/
def samplePos (lastPt : ℚ × ℚ) (st : SegState) : ℚ × ℚ :=
  match st.segs with
  | [] => lastPt
  | (d, a, b) :: _ =>
    interpolate a b (min 1 (st.prog / max (1/1000000) d))

/-- Body of the `while elapsed <= total_sec` loop, re-indexed as a count of
iterations: the loop with `elapsed = 0, sample_sec, 2·sample_sec, …` runs
exactly `⌊total_sec / sample_sec⌋ + 1` times (for `total_sec ≥ 0`,
`sample_sec > 0`), and each iteration emits one point and then advances
`segment_progress`/`segment_remaining` by `speed·sample_sec/3600` nm. -/
def buildGo (flight : FlightPlan) (lastPt : ℚ × ℚ) (advance_nm : ℚ)
    (sample_sec : ℤ) : ℕ → ℤ → SegState → List TrajectoryPoint
  | 0, _, _ => []
  | n + 1, elapsed, st =>
    let st1 := advanceSegs (st.segs.length + 1) st
    let pos := samplePos lastPt st1
    { acid := flight.acid, lat := pos.1, lon := pos.2,
      altitude_ft := flight.altitude_ft,
      timestamp := flight.departure_time + elapsed,
      speed_kt := some flight.speed_kt } ::
      buildGo flight lastPt advance_nm sample_sec n (elapsed + sample_sec)
        ⟨st1.segs, st1.prog + advance_nm, st1.rem - advance_nm⟩

/-- Total route length in nautical miles. -/
def totalNm (gc : (ℚ × ℚ) → (ℚ × ℚ) → ℚ) (pts : List (ℚ × ℚ)) : ℚ :=
  (segmentDistances gc pts).sum

/-- `total_sec = int(math.ceil(total_nm / speed_kt * 3600.0))` with
`speed_kt = max(1, flight.speed_kt)`. -/
def totalSeconds (gc : (ℚ × ℚ) → (ℚ × ℚ) → ℚ) (flight : FlightPlan)
    (pts : List (ℚ × ℚ)) : ℤ :=
  ⌈totalNm gc pts / ((max 1 flight.speed_kt : ℤ) : ℚ) * 3600⌉

/-- `build_trajectory` from `trajectory.py`. -/
def build_trajectory (gc : (ℚ × ℚ) → (ℚ × ℚ) → ℚ) (flight : FlightPlan)
    (pts : List (ℚ × ℚ)) (sample_sec : ℤ) : Except String (List TrajectoryPoint) :=
  if sample_sec ≤ 0 then .error "sample_sec must be positive"
  else if totalNm gc pts ≤ 0 then .error "route distance must be positive"
  else
    match zipSegs gc pts with
    | [] => .error "route distance must be positive" -- unreachable: totalNm > 0
    | (d0, a0, b0) :: restSegs =>
      let speed : ℤ := max 1 flight.speed_kt
      let total_sec := totalSeconds gc flight pts
      let count := total_sec.toNat / sample_sec.toNat + 1
      let lastPt := (pts.getLast?).getD (0, 0)
      let advance_nm : ℚ := (speed : ℚ) * (sample_sec : ℚ) / 3600
      .ok (buildGo flight lastPt advance_nm sample_sec count 0
        ⟨(d0, a0, b0) :: restSegs, 0, d0⟩)

/-! ### `conflicts.py` -/

def HORIZONTAL_THRESHOLD_NM : ℚ := 5
def VERTICAL_THRESHOLD_FT : ℤ := 2000

/-- A raw proximity hit `(timestamp, horizontal_nm, vertical_ft)`. -/
abbrev HitT := ℤ × ℚ × ℤ

/-- A sorted ACID pair. -/
abbrev PairT := String × String

/-- `_bucket_key`. -/
def bucketKey (lat lon : ℚ) (bucket_deg : ℚ) : ℤ × ℤ :=
  (⌊lat / bucket_deg⌋, ⌊lon / bucket_deg⌋)

/-- `_neighbor_keys` offsets, in source iteration order. -/
def neighborOffsets : List (ℤ × ℤ) :=
  [(-1, -1), (-1, 0), (-1, 1), (0, -1), (0, 0), (0, 1), (1, -1), (1, 0), (1, 1)]

/-- The instantaneous separation test
`horizontal_nm < HORIZONTAL_THRESHOLD_NM and vertical_ft < VERTICAL_THRESHOLD_FT`. -/
def separationHit (horizontal_nm : ℚ) (vertical_ft : ℤ) : Bool :=
  decide (horizontal_nm < HORIZONTAL_THRESHOLD_NM) &&
    decide (vertical_ft < VERTICAL_THRESHOLD_FT)

/-- `_severity`. -/
def severityOf (horizontal_nm : ℚ) (vertical_ft : ℤ) : ℚ :=
  round4 (max 0 ((HORIZONTAL_THRESHOLD_NM - horizontal_nm) / HORIZONTAL_THRESHOLD_NM)
    + max 0 (((VERTICAL_THRESHOLD_FT : ℚ) - (vertical_ft : ℚ)) / (VERTICAL_THRESHOLD_FT : ℚ)))

/-- Time binning: `bins[int(timestamp // time_bin_sec)].append(point)` over
all trajectories (dict-value iteration order = insertion order). -/
def binsOf (time_bin_sec : ℤ) (trajectories : List (String × List TrajectoryPoint)) :
    List (ℤ × List TrajectoryPoint) :=
  trajectories.foldl (fun bins entry =>
    entry.2.foldl (fun bins point =>
      dictAppend bins (Int.fdiv point.timestamp time_bin_sec) point) bins) []

/-- Spatial bucketing of one time bin. -/
def spatialOf (bucket_deg : ℚ) (points : List TrajectoryPoint) :
    List ((ℤ × ℤ) × List TrajectoryPoint) :=
  points.foldl (fun sp p => dictAppend sp (bucketKey p.lat p.lon bucket_deg) p) []

/-- Per-bin scan state: `checked_pairs` and the accumulated `raw_hits`. -/
structure ScanState where
  checked : List (PairT × ℤ)
  raw : List (PairT × List HitT)
deriving DecidableEq

/-- Innermost body of the candidate-pair scan: skip same-ACID pairs, dedup on
`(sorted_pair, point_a.timestamp)`, then record a hit when the separation
test passes. -/
def processPair (dist : (ℚ × ℚ) → (ℚ × ℚ) → ℚ) (st : ScanState)
    (pa pb : TrajectoryPoint) : ScanState :=
  if pa.acid = pb.acid then st
  else
    let pair := sortedPair pa.acid pb.acid
    let pairKey := (pair, pa.timestamp)
    if pairKey ∈ st.checked then st
    else
      let checked2 := pairKey :: st.checked
      let horizontal_nm := dist (pa.lat, pa.lon) (pb.lat, pb.lon)
      let vertical_ft := |pa.altitude_ft - pb.altitude_ft|
      if separationHit horizontal_nm vertical_ft then
        ⟨checked2, dictAppend st.raw pair (pa.timestamp, horizontal_nm, vertical_ft)⟩
      else ⟨checked2, st.raw⟩

/-- One bucket: gather the 3×3 neighborhood candidates, then scan
`bucket_points × candidates`. -/
def processBucket (dist : (ℚ × ℚ) → (ℚ × ℚ) → ℚ)
    (spatial : List ((ℤ × ℤ) × List TrajectoryPoint)) (st : ScanState)
    (bucket : ℤ × ℤ) (bucket_points : List TrajectoryPoint) : ScanState :=
  let candidates := neighborOffsets.foldl (fun acc off =>
    acc ++ ((spatial.lookup (bucket.1 + off.1, bucket.2 + off.2)).getD [])) []
  bucket_points.foldl (fun st pa =>
    candidates.foldl (fun st pb => processPair dist st pa pb) st) st

/-- One time bin: fresh `checked_pairs`, spatial bucketing, bucket scan. -/
def processBin (dist : (ℚ × ℚ) → (ℚ × ℚ) → ℚ) (bucket_deg : ℚ)
    (raw : List (PairT × List HitT)) (points : List TrajectoryPoint) :
    List (PairT × List HitT) :=
  let spatial := spatialOf bucket_deg points
  (spatial.foldl (fun st entry => processBucket dist spatial st entry.1 entry.2)
    ⟨[], raw⟩).raw

/-- `raw_hits` after the whole binned scan. -/
def rawHits (dist : (ℚ × ℚ) → (ℚ × ℚ) → ℚ)
    (trajectories : List (String × List TrajectoryPoint))
    (time_bin_sec : ℤ) (bucket_deg : ℚ) : List (PairT × List HitT) :=
  (binsOf time_bin_sec trajectories).foldl
    (fun raw bin => processBin dist bucket_deg raw bin.2) []

/-- Close an open event: `end_time = end + time_bin_sec`, rounded minima,
severity from the running minima. -/
def closeEvent (pair : PairT) (time_bin_sec startT endT : ℤ) (min_h : ℚ)
    (min_v : ℤ) : ConflictEvent :=
  { flight_a := pair.1, flight_b := pair.2, start_time := startT,
    end_time := endT + time_bin_sec, min_horizontal_nm := round4 min_h,
    min_vertical_ft := min_v, severity := severityOf min_h min_v }

/-- Coalescing loop over the remaining (time-sorted) hits. -/
def coalesceGo (pair : PairT) (time_bin_sec : ℤ) :
    ℤ → ℤ → ℚ → ℤ → List HitT → List ConflictEvent
  | startT, endT, min_h, min_v, [] =>
    [closeEvent pair time_bin_sec startT endT min_h min_v]
  | startT, endT, min_h, min_v, (t, h, v) :: rest =>
    if t ≤ endT + time_bin_sec then
      coalesceGo pair time_bin_sec startT t (min min_h h) (min min_v v) rest
    else
      closeEvent pair time_bin_sec startT endT min_h min_v ::
        coalesceGo pair time_bin_sec t t h v rest

/-- Stable-ascending-by-timestamp comparison for `hits.sort(key=h[0])`. -/
def hitKeep (a b : HitT) : Bool := decide (a.1 ≤ b.1)

/-- Per-pair event coalescing (`hits` nonempty in every reachable call; the
empty case is a benign totalization). -/
def coalesce (pair : PairT) (time_bin_sec : ℤ) (hits : List HitT) :
    List ConflictEvent :=
  match stableSort hitKeep hits with
  | [] => []
  | (t, h, v) :: rest => coalesceGo pair time_bin_sec t t h v rest

/-- The conflict list before the final severity sort (events appended
per-pair in `raw_hits` insertion order). -/
def conflictsPre (dist : (ℚ × ℚ) → (ℚ × ℚ) → ℚ)
    (trajectories : List (String × List TrajectoryPoint))
    (time_bin_sec : ℤ) (bucket_deg : ℚ) : List ConflictEvent :=
  (rawHits dist trajectories time_bin_sec bucket_deg).foldl
    (fun acc e => acc ++ coalesce e.1 time_bin_sec e.2) []

/-- Stable-descending-by-severity comparison for the final sort. -/
def sevKeep (a b : ConflictEvent) : Bool := decide (b.severity ≤ a.severity)

/-- `detect_conflicts` from `conflicts.py`, parametrised by the distance
oracle standing for `great_circle_nm`. -/
def detect_conflicts (dist : (ℚ × ℚ) → (ℚ × ℚ) → ℚ)
    (trajectories : List (String × List TrajectoryPoint))
    (time_bin_sec : ℤ) (bucket_deg : ℚ) : List ConflictEvent :=
  stableSort sevKeep (conflictsPre dist trajectories time_bin_sec bucket_deg)

/-! ### `hotspots.py` -/

structure HotspotConfig where
  lat_bucket_deg : ℚ
  lon_bucket_deg : ℚ
  altitude_band_ft : ℤ
  time_bin_sec : ℤ
  top_n : ℕ
deriving DecidableEq

/-- `HotspotConfig()` defaults. -/
def defaultHotspotConfig : HotspotConfig := ⟨1, 1, 2000, 60, 10⟩

/-- `_bucket(value, step) = int(math.floor(value / step))`. -/
def hbucket (value step : ℚ) : ℤ := ⌊value / step⌋

/-- Per-cell aggregation state (`{"peak_density": …, "time_bins": set, "flights": set}`). -/
structure CellStats where
  peak_density : ℕ
  time_bins : List ℤ
  flights : List String
deriving DecidableEq

/-- The 4D occupancy map `(lat_b, lon_b, alt_b, time_bin) → points`. -/
def occupancyOf (cfg : HotspotConfig)
    (trajectories : List (String × List TrajectoryPoint)) :
    List ((ℤ × ℤ × ℤ × ℤ) × List TrajectoryPoint) :=
  trajectories.foldl (fun occ entry =>
    entry.2.foldl (fun occ p =>
      dictAppend occ
        (hbucket p.lat cfg.lat_bucket_deg,
         hbucket p.lon cfg.lon_bucket_deg,
         hbucket (p.altitude_ft : ℚ) ((cfg.altitude_band_ft : ℤ) : ℚ),
         Int.fdiv p.timestamp cfg.time_bin_sec) p) occ) []

/-- Projection to 3D cells with running aggregates. -/
def cellStatsOf (occ : List ((ℤ × ℤ × ℤ × ℤ) × List TrajectoryPoint)) :
    List ((ℤ × ℤ × ℤ) × CellStats) :=
  occ.foldl (fun cs entry =>
    dictUpdate cs (entry.1.1, entry.1.2.1, entry.1.2.2.1) ⟨0, [], []⟩ (fun st =>
      ⟨max st.peak_density entry.2.length,
       setInsert st.time_bins entry.1.2.2.2,
       setUnion st.flights (entry.2.map (·.acid))⟩)) []

/-- Stable-ascending comparison for `sorted(time_bins)`. -/
def intKeep (a b : ℤ) : Bool := decide (a ≤ b)

/-- Build one `HotspotCell` from a cell key and its stats (`None` when the
cell has no time bins, mirroring the `continue`).
`occupancy_minutes = len(time_bins) * int(time_bin_sec / 60)` where `int(…)`
truncates toward zero. -/
def mkHotspot (cfg : HotspotConfig) (key : ℤ × ℤ × ℤ) (st : CellStats) :
    Option HotspotCell :=
  match stableSort intKeep st.time_bins with
  | [] => none
  | tb0 :: rest =>
    let tlast := (rest.getLast?).getD tb0
    let time_start := tb0 * cfg.time_bin_sec
    let time_end := (tlast + 1) * cfg.time_bin_sec
    let occupancy_minutes : ℤ := (st.time_bins.length : ℤ) * (Int.tdiv cfg.time_bin_sec 60)
    let unique_flights := st.flights.length
    let peak := st.peak_density
    some { lat_bucket := key.1, lon_bucket := key.2.1, altitude_band := key.2.2,
           time_start := time_start, time_end := time_end,
           peak_density := (peak : ℤ), occupancy_minutes := occupancy_minutes,
           unique_flights := (unique_flights : ℤ),
           score := round4 ((peak : ℚ) * 0.6 + (unique_flights : ℚ) * 0.3
             + (occupancy_minutes : ℚ) * 0.1) }

/-- Stable-descending-by-score comparison. -/
def scoreKeep (a b : HotspotCell) : Bool := decide (b.score ≤ a.score)

/-- `detect_hotspots` from `hotspots.py`. -/
def detect_hotspots (trajectories : List (String × List TrajectoryPoint))
    (cfg : HotspotConfig) : List HotspotCell :=
  let cells := (cellStatsOf (occupancyOf cfg trajectories)).foldl
    (fun acc e =>
      match mkHotspot cfg e.1 e.2 with
      | none => acc
      | some c => acc ++ [c]) []
  (stableSort scoreKeep cells).take cfg.top_n

/-! ### `scoring.py` -/

structure ScoreWeights where
  conflict_weight : ℚ
  delay_weight : ℚ
  altitude_weight : ℚ
  speed_weight : ℚ
  complexity_weight : ℚ
deriving DecidableEq

/-- `ScoreWeights()` defaults. -/
def defaultScoreWeights : ScoreWeights := ⟨1, 0.04, 0.002, 0.01, 0.2⟩

/-- `score_candidate` (functionally: returns the candidate with
benefit/cost/score filled in; the source mutates the record and returns it). -/
def score_candidate (candidate : ResolutionCandidate) (conflict : ConflictEvent)
    (weights : Option ScoreWeights) : ResolutionCandidate :=
  let w := weights.getD defaultScoreWeights
  let delay : ℤ := |candidate.delta_departure_min.getD 0|
  let altitude : ℤ := |candidate.delta_altitude_ft.getD 0|
  let speed : ℤ := |candidate.delta_speed_kt.getD 0|
  -- `1.0 if candidate.reroute_waypoint else 0.3` (None and "" are falsy)
  let complexity : ℚ :=
    match candidate.reroute_waypoint with
    | some s => if s = "" then 0.3 else 1
    | none => 0.3
  let benefit := round4 (conflict.severity * w.conflict_weight)
  let cost := round4 ((delay : ℚ) * w.delay_weight + (altitude : ℚ) * w.altitude_weight
    + (speed : ℚ) * w.speed_weight + complexity * w.complexity_weight)
  { candidate with
    benefit := benefit
    cost := cost
    score := round4 (benefit - cost) }

/-! ### `resolver.py` -/

def ALTITUDE_STEPS : List ℤ := [-4000, -2000, 2000, 4000]
def SPEED_STEPS : List ℤ := [-25, -15, -10, 10, 15, 25]
def DEPARTURE_STEPS : List ℤ := [-10, -5, -2, 2, 5, 10]

/-- Python `f"{d:+}"`. -/
def signedStr (d : ℤ) : String :=
  if 0 ≤ d then "+" ++ toString d else toString d

/-- `_candidate` constructor (score/benefit/cost initialised to 0). -/
def mkCandidate (flight_id action_type summary : String)
    (delta_altitude_ft delta_speed_kt delta_departure_min : Option ℤ)
    (reroute_waypoint : Option String) : ResolutionCandidate :=
  { flight_id := flight_id
    action_type := action_type
    summary := summary
    delta_altitude_ft := delta_altitude_ft
    delta_speed_kt := delta_speed_kt
    delta_departure_min := delta_departure_min
    reroute_waypoint := reroute_waypoint
    score := 0
    benefit := 0
    cost := 0 }

/-- `flight.copy(update={"altitude_ft": …+delta_alt, "speed_kt": …+delta_speed})` —
a fresh record, the original untouched. -/
def copyWithDeltas (flight : FlightPlan) (delta_alt delta_speed : ℤ) : FlightPlan :=
  { flight with
    altitude_ft := flight.altitude_ft + delta_alt
    speed_kt := flight.speed_kt + delta_speed }

/-- `_valid_with_delta` (the unused `delta_dep_min` parameter of the source is
omitted): validate the updated copy, accept iff no issues. -/
def valid_with_delta (flight : FlightPlan) (delta_alt delta_speed : ℤ) : Bool :=
  (validate_flight_plan (copyWithDeltas flight delta_alt delta_speed)).isEmpty

/-- The unscored candidate list generated for one conflicted flight
(altitude and speed deltas filtered by `_valid_with_delta`, departure deltas
unfiltered, one reroute candidate when the route string is non-empty). -/
def generateCandidates (flight_id : String) (flight : FlightPlan) :
    List ResolutionCandidate :=
  ((ALTITUDE_STEPS.filter (fun d => valid_with_delta flight d 0)).map (fun d =>
    mkCandidate flight_id "altitude" ("Change altitude by " ++ signedStr d ++ " ft")
      (some d) none none none))
  ++ ((SPEED_STEPS.filter (fun d => valid_with_delta flight 0 d)).map (fun d =>
    mkCandidate flight_id "speed" ("Change speed by " ++ signedStr d ++ " kt")
      none (some d) none none))
  ++ (DEPARTURE_STEPS.map (fun d =>
    mkCandidate flight_id "departure" ("Shift departure by " ++ signedStr d ++ " min")
      none none (some d) none))
  ++ (if flight.route ≠ "" then
      [mkCandidate flight_id "reroute" "Insert waypoint FIX01" none none none
        (some "FIX01")]
    else [])

/-- Stable-descending-by-score comparison for scored candidates. -/
def candKeep (a b : ResolutionCandidate) : Bool := decide (b.score ≤ a.score)

/-- One side of one conflict: look the flight up in the store, generate,
score, sort, keep top 3 under key `"{a}-{b}:{fid}"`.  The flight store is
threaded through and returned so that the absence of writes to it is
explicit in the model. -/
def proposeForFlight (conflict : ConflictEvent)
    (flights : List (String × FlightPlan))
    (proposals : List (String × List ResolutionCandidate)) (flight_id : String) :
    List (String × List ResolutionCandidate) × List (String × FlightPlan) :=
  match flights.lookup flight_id with
  | none => (proposals, flights)
  | some flight =>
    let scored := stableSort candKeep
      ((generateCandidates flight_id flight).map (fun c => score_candidate c conflict none))
    let key := conflict.flight_a ++ "-" ++ conflict.flight_b ++ ":" ++ flight_id
    (dictSet proposals key (scored.take 3), flights)

/-- `propose_resolutions` from `resolver.py`, with the flight store threaded
through explicitly (second component of the result = the store as the call
leaves it). -/
def propose_resolutions (conflicts : List ConflictEvent)
    (flights : List (String × FlightPlan)) :
    List (String × List ResolutionCandidate) × List (String × FlightPlan) :=
  conflicts.foldl (fun st conflict =>
    let r1 := proposeForFlight conflict st.2 st.1 conflict.flight_a
    proposeForFlight conflict r1.2 r1.1 conflict.flight_b) ([], flights)

/-! ### Concrete scenarios (used by witnesses and counterexamples) -/

/-- A constant distance oracle. -/
def constDist (q : ℚ) : (ℚ × ℚ) → (ℚ × ℚ) → ℚ := fun _ _ => q

def mkPoint (acid : String) (lat lon : ℚ) (alt t : ℤ) : TrajectoryPoint :=
  ⟨acid, lat, lon, alt, t, none⟩

/-- Two co-located flights whose vertical separation is exactly 2000 ft. -/
def trajsVertEq : List (String × List TrajectoryPoint) :=
  [("X", [mkPoint "X" 0 0 30000 0]), ("Y", [mkPoint "Y" 0 0 32000 0])]

/-- Two flights at the same altitude about 5 nm apart (1/12 of a degree of
latitude; the constant distance oracles used with this scenario are the
plausible haversine values for that geometry). -/
def trajsHorizEq : List (String × List TrajectoryPoint) :=
  [("X", [mkPoint "X" 0 0 30000 0]), ("Y", [mkPoint "Y" (1/12) 0 30000 0])]

/-- One pair producing two separated conflict events: a mild one (1900 ft
vertical separation) at t = 0 and a severe one (0 ft) at t = 200. -/
def trajsTwoEvents : List (String × List TrajectoryPoint) :=
  [("A", [mkPoint "A" 0 0 30000 0, mkPoint "A" 0 0 30000 200]),
   ("B", [mkPoint "B" (49/600) 0 31900 0, mkPoint "B" (49/600) 0 30000 200])]

/-- A jet flight plan used by the trajectory scenarios. -/
def flightTiny : FlightPlan :=
  ⟨"T1", "jet", "0N/0E 0N/1E", 30000, 0, 360, 100, false, none, none⟩

def ptsUnit : List (ℚ × ℚ) := [(0, 0), (0, 1)]

/-- A 0.01-degree (≈ 0.6 nm) route leg. -/
def ptsTiny : List (ℚ × ℚ) := [(0, 0), (0, 1/100)]

/-- A recognized narrowbody whose speed 600 kt is outside the jet band. -/
def flightFast737 : FlightPlan :=
  ⟨"F1", "boeing 737", "0N/0E 0N/1E", 30000, 0, 600, 100, false, none, none⟩

/-- A recognized narrowbody fully inside the jet band. -/
def flightOk737 : FlightPlan :=
  ⟨"F2", "boeing 737", "0N/0E 0N/1E", 30000, 0, 450, 100, false, none, none⟩

/-- A two-airport coordinate map for the route-expansion scenario. -/
def airportsYYZUL : String → Option (ℚ × ℚ) := fun code =>
  if code = "CYYZ" then some (43.6777, -79.6248)
  else if code = "CYUL" then some (45.4706, -73.7408)
  else none

/-! ### Specification-side definitions used for refinement comparison -/

/-- Stable descending-key-length comparison on table entries. -/
def keyLenKeep (a b : String × String) : Bool :=
  decide (b.1.length ≤ a.1.length)

/-- Modelled from the spec: the classifier as §4.C describes it — "iterate
table entries from longest key to shortest to ensure specific matches
precede generic ones"; identical to `classify_aircraft` except that the
known-aircraft table is scanned in order of descending key length. -/
def classifySpecLongest (plane_type : String) : String × Bool :=
  let normalized := normalizeType plane_type
  if normalized.isEmpty then ("jet", false)
  else
    match (stableSort keyLenKeep KNOWN_AIRCRAFT).find?
        (fun kv => isSubOf kv.1.toList normalized) with
    | some kv => ((CATEGORY_TO_CONSTRAINTS.lookup kv.2).getD "jet", true)
    | none => classifyFallback normalized

/-! ### Invariant predicates -/

def keysOf (d : List (κ × α)) : List κ := d.map Prod.fst

/-- Invariant of the accumulated `raw_hits`: keys are distinct ordered pairs
and every recorded hit passed the strict separation test. -/
def rawInv (raw : List (PairT × List HitT)) : Prop :=
  (keysOf raw).Nodup ∧
    ∀ e ∈ raw, e.1.1 < e.1.2 ∧
      ∀ h ∈ e.2, h.2.1 < HORIZONTAL_THRESHOLD_NM ∧ h.2.2 < VERTICAL_THRESHOLD_FT

/-- Well-formedness of an emitted conflict event (the amended C6 property). -/
def eventWF (e : ConflictEvent) : Prop :=
  e.flight_a < e.flight_b ∧ e.start_time ≤ e.end_time ∧
    e.min_vertical_ft < VERTICAL_THRESHOLD_FT ∧
    e.min_horizontal_nm ≤ HORIZONTAL_THRESHOLD_NM

/-! ## Theorems

Generic helper lemmas about the container operations, then the claim
theorems. -/

theorem foldl_preserve {β : Type u} {α : Type v} (P : β → Prop) (f : β → α → β)
    (hf : ∀ b a, P b → P (f b a)) :
    ∀ (l : List α) (b : β), P b → P (l.foldl f b)
  | [], _, hb => hb
  | x :: xs, b, hb => foldl_preserve P f hf xs (f b x) (hf b x hb)

theorem insertKeep_perm (keep : α → α → Bool) (x : α) (l : List α) :
    List.Perm (insertKeep keep x l) (x :: l) := by
  induction l with
  | nil => simp [insertKeep]
  | cons y ys ih =>
    rw [insertKeep]
    by_cases h : keep y x
    · simpa [h] using (ih.cons y).trans (List.Perm.swap x y ys)
    · simp [h]

theorem mem_insertKeep {keep : α → α → Bool} {x a : α} {l : List α} :
    a ∈ insertKeep keep x l ↔ a = x ∨ a ∈ l := by
  rw [(insertKeep_perm keep x l).mem_iff, List.mem_cons]

theorem stableSort_aux_perm (keep : α → α → Bool) :
    ∀ (l acc : List α),
      List.Perm (l.foldl (fun acc x => insertKeep keep x acc) acc) (acc ++ l)
  | [], acc => by simp
  | x :: xs, acc => by
    refine ((stableSort_aux_perm keep xs (insertKeep keep x acc)).trans ?_)
    exact ((insertKeep_perm keep x acc).append_right xs).trans List.perm_middle.symm
termination_by l => l.length

theorem stableSort_perm (keep : α → α → Bool) (l : List α) :
    List.Perm (stableSort keep l) l := by
  simpa using stableSort_aux_perm keep l []

theorem mem_stableSort {keep : α → α → Bool} {a : α} {l : List α} :
    a ∈ stableSort keep l ↔ a ∈ l :=
  (stableSort_perm keep l).mem_iff

theorem insertKeep_pairwise (keep : α → α → Bool)
    (htot : ∀ a b : α, keep a b = true ∨ keep b a = true)
    (htrans : ∀ a b c : α, keep a b = true → keep b c = true → keep a c = true)
    (x : α) : ∀ l : List α, l.Pairwise (fun a b => keep a b = true) →
      (insertKeep keep x l).Pairwise (fun a b => keep a b = true) := by
  intro l
  induction l with
  | nil => intro _; simp [insertKeep]
  | cons y ys ih =>
    intro hl
    rw [List.pairwise_cons] at hl
    obtain ⟨hy, hys⟩ := hl
    rw [insertKeep]
    by_cases h : keep y x = true
    · simp only [h, if_true, List.pairwise_cons]
      refine ⟨?_, ih hys⟩
      intro z hz
      rcases mem_insertKeep.mp hz with hz | hz
      · exact hz ▸ h
      · exact hy z hz
    · have hxy : keep x y = true := (htot y x).resolve_left h
      simp only [h, if_false, Bool.false_eq_true, List.pairwise_cons]
      refine ⟨?_, ?_⟩
      · intro z hz
        rcases List.mem_cons.mp hz with hz | hz
        · exact hz ▸ hxy
        · exact htrans x y z hxy (hy z hz)
      · exact ⟨hy, hys⟩

theorem stableSort_pairwise (keep : α → α → Bool)
    (htot : ∀ a b : α, keep a b = true ∨ keep b a = true)
    (htrans : ∀ a b c : α, keep a b = true → keep b c = true → keep a c = true)
    (l : List α) :
    (stableSort keep l).Pairwise (fun a b => keep a b = true) := by
  refine foldl_preserve (fun acc => acc.Pairwise (fun a b => keep a b = true))
    (fun acc x => insertKeep keep x acc) ?_ l [] List.Pairwise.nil
  intro acc x hacc
  exact insertKeep_pairwise keep htot htrans x acc hacc

theorem keysOf_dictAppend [DecidableEq κ] (d : List (κ × List α)) (k : κ) (v : α) :
    keysOf (dictAppend d k v) =
      if k ∈ keysOf d then keysOf d else keysOf d ++ [k] := by
  induction d with
  | nil => simp [dictAppend, keysOf]
  | cons e rest ih =>
    obtain ⟨k', vs⟩ := e
    rw [dictAppend]
    by_cases h : k' = k
    · subst h; simp [keysOf]
    · have hne : ¬ k = k' := fun hc => h hc.symm
      simp only [h, if_false, keysOf, List.map_cons, List.mem_cons, hne, false_or]
      rw [show List.map Prod.fst (dictAppend rest k v) = keysOf (dictAppend rest k v) from rfl,
        ih]
      by_cases hk : k ∈ keysOf rest <;>
        · simp only [keysOf] at hk ⊢
          simp [hk]

theorem nodup_keysOf_dictAppend [DecidableEq κ] (d : List (κ × List α)) (k : κ)
    (v : α) (h : (keysOf d).Nodup) : (keysOf (dictAppend d k v)).Nodup := by
  rw [keysOf_dictAppend]
  by_cases hk : k ∈ keysOf d
  · simpa [hk] using h
  · simpa [hk, List.nodup_append] using h

theorem dictAppend_forall [DecidableEq κ] (P : κ → Prop) (Q : α → Prop)
    (d : List (κ × List α)) (k : κ) (v : α)
    (hd : ∀ e ∈ d, P e.1 ∧ ∀ x ∈ e.2, Q x) (hk : P k) (hv : Q v) :
    ∀ e ∈ dictAppend d k v, P e.1 ∧ ∀ x ∈ e.2, Q x := by
  induction d with
  | nil =>
    intro e he
    simp only [dictAppend, List.mem_singleton] at he
    subst he
    exact ⟨hk, by simpa using hv⟩
  | cons e0 rest ih =>
    obtain ⟨k', vs⟩ := e0
    intro e he
    rw [dictAppend] at he
    by_cases h : k' = k
    · simp only [h, if_true, List.mem_cons] at he
      rcases he with he | he
      · subst he
        have h0 := hd (k, vs) (by simp [h ▸ List.mem_cons_self (k', vs) rest, h])
        refine ⟨by simpa using h0.1, ?_⟩
        intro x hx
        rcases List.mem_append.mp hx with hx | hx
        · exact h0.2 x hx
        · simpa using (List.mem_singleton.mp hx) ▸ hv
      · exact hd e (List.mem_cons_of_mem _ he)
    · simp only [h, if_false, List.mem_cons] at he
      rcases he with he | he
      · subst he; exact hd (k', vs) (List.mem_cons_self _ _)
      · exact ih (fun e' he' => hd e' (List.mem_cons_of_mem _ he')) e he

theorem sortedPair_lt {a b : String} (h : a ≠ b) :
    (sortedPair a b).1 < (sortedPair a b).2 := by
  unfold sortedPair
  split
  · next hlt => exact hlt
  · next hlt => exact lt_of_le_of_ne (le_of_not_lt hlt) h

theorem separationHit_iff (h : ℚ) (v : ℤ) :
    separationHit h v = true ↔ h < 5 ∧ v < 2000 := by
  simp [separationHit, HORIZONTAL_THRESHOLD_NM, VERTICAL_THRESHOLD_FT]

theorem foldl_preserve_mem {β : Type u} {α : Type v} (P : β → Prop)
    (l : List α) (f : β → α → β) (hf : ∀ b a, a ∈ l → P b → P (f b a)) :
    ∀ (b : β), P b → P (l.foldl f b) := by
  induction l with
  | nil => intro b hb; exact hb
  | cons x xs ih =>
    intro b hb
    exact ih (fun b' a ha hb' => hf b' a (List.mem_cons_of_mem _ ha) hb')
      (f b x) (hf b x (List.mem_cons_self _ _) hb)

theorem roundHalfEven_le_of_lt {q : ℚ} {n : ℤ} (h : q < (n : ℚ)) :
    roundHalfEven q ≤ n := by
  have hfl : ⌊q⌋ < n := Int.floor_lt.mpr h
  simp only [roundHalfEven]
  split
  · omega
  · split
    · omega
    · split <;> omega

theorem round4_le_five {q : ℚ} (h : q < 5) : round4 q ≤ 5 := by
  have h1 : q * 10000 < ((50000 : ℤ) : ℚ) := by push_cast; linarith
  have h2 : roundHalfEven (q * 10000) ≤ 50000 := roundHalfEven_le_of_lt h1
  unfold round4
  rw [div_le_iff₀ (by norm_num : (0 : ℚ) < 10000)]
  calc ((roundHalfEven (q * 10000) : ℤ) : ℚ) ≤ ((50000 : ℤ) : ℚ) := by exact_mod_cast h2
    _ = 5 * 10000 := by norm_num

theorem processPair_rawInv (dist : (ℚ × ℚ) → (ℚ × ℚ) → ℚ) (st : ScanState)
    (pa pb : TrajectoryPoint) (h : rawInv st.raw) :
    rawInv (processPair dist st pa pb).raw := by
  unfold processPair
  by_cases h1 : pa.acid = pb.acid
  · simpa [h1] using h
  · simp only [h1, if_false]
    by_cases h2 : (sortedPair pa.acid pb.acid, pa.timestamp) ∈ st.checked
    · simpa [h2] using h
    · simp only [h2, if_false]
      by_cases h3 : separationHit (dist (pa.lat, pa.lon) (pb.lat, pb.lon))
          |pa.altitude_ft - pb.altitude_ft| = true
      · simp only [h3, if_true]
        refine ⟨nodup_keysOf_dictAppend _ _ _ h.1, ?_⟩
        refine dictAppend_forall (fun p : PairT => p.1 < p.2)
          (fun hh : HitT => hh.2.1 < HORIZONTAL_THRESHOLD_NM ∧ hh.2.2 < VERTICAL_THRESHOLD_FT)
          _ _ _ h.2 (sortedPair_lt h1) ?_
        obtain ⟨hh, hv⟩ := (separationHit_iff _ _).mp h3
        exact ⟨by simpa [HORIZONTAL_THRESHOLD_NM] using hh,
          by simpa [VERTICAL_THRESHOLD_FT] using hv⟩
      · simpa [h3] using h

theorem processBucket_rawInv (dist : (ℚ × ℚ) → (ℚ × ℚ) → ℚ)
    (spatial : List ((ℤ × ℤ) × List TrajectoryPoint)) (st : ScanState)
    (bucket : ℤ × ℤ) (bucket_points : List TrajectoryPoint)
    (h : rawInv st.raw) : rawInv (processBucket dist spatial st bucket bucket_points).raw := by
  unfold processBucket
  refine foldl_preserve (fun s : ScanState => rawInv s.raw) _ ?_ bucket_points st h
  intro s pa hs
  refine foldl_preserve (fun s : ScanState => rawInv s.raw) _ ?_ _ s hs
  intro s2 pb hs2
  exact processPair_rawInv dist s2 pa pb hs2

theorem processBin_rawInv (dist : (ℚ × ℚ) → (ℚ × ℚ) → ℚ) (bucket_deg : ℚ)
    (raw : List (PairT × List HitT)) (points : List TrajectoryPoint)
    (h : rawInv raw) : rawInv (processBin dist bucket_deg raw points) := by
  unfold processBin
  refine foldl_preserve (fun s : ScanState => rawInv s.raw) _ ?_ _ ⟨[], raw⟩ h
  intro st entry hst
  exact processBucket_rawInv _ _ _ _ _ hst

theorem rawHits_rawInv (dist : (ℚ × ℚ) → (ℚ × ℚ) → ℚ)
    (trajectories : List (String × List TrajectoryPoint)) (time_bin_sec : ℤ)
    (bucket_deg : ℚ) : rawInv (rawHits dist trajectories time_bin_sec bucket_deg) := by
  unfold rawHits
  refine foldl_preserve rawInv _ ?_ _ [] ⟨List.nodup_nil, by simp⟩
  intro raw bin h
  exact processBin_rawInv dist bucket_deg raw bin.2 h

theorem closeEvent_wf (pair : PairT) (tbin startT endT : ℤ) (min_h : ℚ)
    (min_v : ℤ) (htbin : 0 ≤ tbin) (hpair : pair.1 < pair.2)
    (hse : startT ≤ endT) (hmh : min_h < HORIZONTAL_THRESHOLD_NM)
    (hmv : min_v < VERTICAL_THRESHOLD_FT) :
    eventWF (closeEvent pair tbin startT endT min_h min_v) := by
  refine ⟨hpair, by simp only [closeEvent]; omega, hmv, ?_⟩
  have h5 : min_h < 5 := by simpa [HORIZONTAL_THRESHOLD_NM] using hmh
  simpa [closeEvent, HORIZONTAL_THRESHOLD_NM] using round4_le_five h5

theorem coalesceGo_wf (pair : PairT) (tbin : ℤ) (htbin : 0 ≤ tbin)
    (hpair : pair.1 < pair.2) :
    ∀ (rest : List HitT) (startT endT : ℤ) (min_h : ℚ) (min_v : ℤ),
      startT ≤ endT → min_h < HORIZONTAL_THRESHOLD_NM →
      min_v < VERTICAL_THRESHOLD_FT →
      (∀ x ∈ rest, x.2.1 < HORIZONTAL_THRESHOLD_NM ∧ x.2.2 < VERTICAL_THRESHOLD_FT) →
      (∀ x ∈ rest, endT ≤ x.1) →
      rest.Pairwise (fun x y => x.1 ≤ y.1) →
      ∀ e ∈ coalesceGo pair tbin startT endT min_h min_v rest, eventWF e := by
  intro rest
  induction rest with
  | nil =>
    intro startT endT min_h min_v hse hmh hmv _ _ _ e he
    simp only [coalesceGo, List.mem_singleton] at he
    subst he
    exact closeEvent_wf pair tbin startT endT min_h min_v htbin hpair hse hmh hmv
  | cons hd tl ih =>
    intro startT endT min_h min_v hse hmh hmv hok hbnd hpw e he
    obtain ⟨t, h, v⟩ := hd
    rw [coalesceGo] at he
    have hhd := hok (t, h, v) (List.mem_cons_self _ _)
    have hbhd := hbnd (t, h, v) (List.mem_cons_self _ _)
    rw [List.pairwise_cons] at hpw
    obtain ⟨hhead, hpwtl⟩ := hpw
    by_cases hcond : t ≤ endT + tbin
    · simp only [hcond, if_true] at he
      refine ih startT t (min min_h h) (min min_v v) (le_trans hse hbhd)
        (lt_of_le_of_lt (min_le_left _ _) hmh)
        (lt_of_le_of_lt (min_le_left _ _) hmv)
        (fun x hx => hok x (List.mem_cons_of_mem _ hx))
        (fun x hx => hhead x hx) hpwtl e he
    · simp only [hcond, if_false] at he
      rcases List.mem_cons.mp he with he | he
      · subst he
        exact closeEvent_wf pair tbin startT endT min_h min_v htbin hpair hse hmh hmv
      · exact ih t t h v le_rfl hhd.1 hhd.2
          (fun x hx => hok x (List.mem_cons_of_mem _ hx))
          (fun x hx => hhead x hx) hpwtl e he

theorem coalesce_wf (pair : PairT) (tbin : ℤ) (htbin : 0 ≤ tbin)
    (hpair : pair.1 < pair.2) (hits : List HitT)
    (hok : ∀ x ∈ hits, x.2.1 < HORIZONTAL_THRESHOLD_NM ∧ x.2.2 < VERTICAL_THRESHOLD_FT) :
    ∀ e ∈ coalesce pair tbin hits, eventWF e := by
  unfold coalesce
  have hperm := stableSort_perm hitKeep hits
  have hpw0 := stableSort_pairwise hitKeep
    (fun a b => by simpa [hitKeep] using le_total a.1 b.1)
    (fun a b c hab hbc => by
      simp only [hitKeep, decide_eq_true_eq] at hab hbc ⊢
      exact le_trans hab hbc) hits
  have hpw : (stableSort hitKeep hits).Pairwise (fun x y : HitT => x.1 ≤ y.1) :=
    hpw0.imp (fun h => by simpa [hitKeep] using h)
  cases hs : stableSort hitKeep hits with
  | nil => simp
  | cons hd tl =>
    obtain ⟨t, h, v⟩ := hd
    rw [hs] at hpw hperm
    have hmem : ∀ x ∈ (t, h, v) :: tl, x ∈ hits := fun x hx => hperm.subset hx
    rw [List.pairwise_cons] at hpw
    intro e he
    have hhd := hok (t, h, v) (hmem _ (List.mem_cons_self _ _))
    exact coalesceGo_wf pair tbin htbin hpair tl t t h v le_rfl hhd.1 hhd.2
      (fun x hx => hok x (hmem x (List.mem_cons_of_mem _ hx)))
      (fun x hx => hpw.1 x hx) hpw.2 e he

theorem conflictsPre_wf (dist : (ℚ × ℚ) → (ℚ × ℚ) → ℚ)
    (trajectories : List (String × List TrajectoryPoint)) (tbin : ℤ)
    (bdeg : ℚ) (htbin : 0 ≤ tbin) :
    ∀ e ∈ conflictsPre dist trajectories tbin bdeg, eventWF e := by
  unfold conflictsPre
  have hinv := rawHits_rawInv dist trajectories tbin bdeg
  refine foldl_preserve_mem (fun acc => ∀ e ∈ acc, eventWF e) _ _ ?_ [] (by simp)
  intro acc entry hentry hacc e he
  rcases List.mem_append.mp he with he | he
  · exact hacc e he
  · have h2 := hinv.2 entry hentry
    exact coalesce_wf entry.1 tbin htbin h2.1 entry.2 h2.2 e he

theorem foldl_append_eq {α : Type u} {β : Type v} (f : α → List β) :
    ∀ (l : List α) (acc : List β),
      l.foldl (fun a e => a ++ f e) acc = acc ++ (l.map f).flatten
  | [], acc => by simp
  | x :: xs, acc => by
    rw [List.foldl_cons, foldl_append_eq f xs (acc ++ f x)]
    simp [List.append_assoc]

theorem coalesceGo_pair (pair : PairT) (tbin : ℤ) :
    ∀ (rest : List HitT) (startT endT : ℤ) (min_h : ℚ) (min_v : ℤ),
      ∀ e ∈ coalesceGo pair tbin startT endT min_h min_v rest,
        e.flight_a = pair.1 ∧ e.flight_b = pair.2 := by
  intro rest
  induction rest with
  | nil =>
    intro startT endT min_h min_v e he
    simp only [coalesceGo, List.mem_singleton] at he
    subst he
    exact ⟨rfl, rfl⟩
  | cons hd tl ih =>
    intro startT endT min_h min_v e he
    obtain ⟨t, h, v⟩ := hd
    rw [coalesceGo] at he
    by_cases hcond : t ≤ endT + tbin
    · simp only [hcond, if_true] at he
      exact ih startT t (min min_h h) (min min_v v) e he
    · simp only [hcond, if_false] at he
      rcases List.mem_cons.mp he with he | he
      · subst he; exact ⟨rfl, rfl⟩
      · exact ih t t h v e he

theorem coalesce_pair (pair : PairT) (tbin : ℤ) (hits : List HitT) :
    ∀ e ∈ coalesce pair tbin hits, e.flight_a = pair.1 ∧ e.flight_b = pair.2 := by
  unfold coalesce
  cases stableSort hitKeep hits with
  | nil => simp
  | cons hd tl =>
    obtain ⟨t, h, v⟩ := hd
    exact coalesceGo_pair pair tbin tl t t h v

theorem coalesceGo_chain (pair : PairT) (tbin : ℤ) (htbin : 0 ≤ tbin) :
    ∀ (rest : List HitT) (startT endT : ℤ) (min_h : ℚ) (min_v : ℤ),
      startT ≤ endT → (∀ x ∈ rest, endT ≤ x.1) →
      rest.Pairwise (fun x y => x.1 ≤ y.1) →
      List.Chain' (fun x y : ConflictEvent => x.start_time ≤ y.start_time)
        (coalesceGo pair tbin startT endT min_h min_v rest) ∧
      ∀ e ∈ coalesceGo pair tbin startT endT min_h min_v rest,
        startT ≤ e.start_time := by
  intro rest
  induction rest with
  | nil =>
    intro startT endT min_h min_v hse _ _
    refine ⟨List.chain'_singleton _, ?_⟩
    intro e he
    simp only [coalesceGo, List.mem_singleton] at he
    subst he
    exact le_refl _
  | cons hd tl ih =>
    intro startT endT min_h min_v hse hbnd hpw
    obtain ⟨t, h, v⟩ := hd
    have hbhd := hbnd (t, h, v) (List.mem_cons_self _ _)
    rw [List.pairwise_cons] at hpw
    obtain ⟨hhead, hpwtl⟩ := hpw
    rw [coalesceGo]
    by_cases hcond : t ≤ endT + tbin
    · simp only [hcond, if_true]
      exact ih startT t (min min_h h) (min min_v v) (le_trans hse hbhd)
        (fun x hx => hhead x hx) hpwtl
    · simp only [hcond, if_false]
      have hrec := ih t t h v le_rfl (fun x hx => hhead x hx) hpwtl
      have hlt : startT ≤ t := by omega
      constructor
      · rw [List.chain'_cons']
        refine ⟨?_, hrec.1⟩
        intro y hy
        have hy2 : y ∈ coalesceGo pair tbin t t h v tl := List.mem_of_mem_head? hy
        exact le_trans hlt (hrec.2 y hy2)
      · intro e he
        rcases List.mem_cons.mp he with he | he
        · subst he; exact le_refl _
        · exact le_trans hlt (hrec.2 e he)

theorem coalesce_chain (pair : PairT) (tbin : ℤ) (htbin : 0 ≤ tbin)
    (hits : List HitT) :
    List.Chain' (fun x y : ConflictEvent => x.start_time ≤ y.start_time)
      (coalesce pair tbin hits) := by
  unfold coalesce
  have hpw0 := stableSort_pairwise hitKeep
    (fun a b => by simpa [hitKeep] using le_total a.1 b.1)
    (fun a b c hab hbc => by
      simp only [hitKeep, decide_eq_true_eq] at hab hbc ⊢
      exact le_trans hab hbc) hits
  have hpw : (stableSort hitKeep hits).Pairwise (fun x y : HitT => x.1 ≤ y.1) :=
    hpw0.imp (fun h => by simpa [hitKeep] using h)
  cases hs : stableSort hitKeep hits with
  | nil => simp
  | cons hd tl =>
    obtain ⟨t, h, v⟩ := hd
    rw [hs, List.pairwise_cons] at hpw
    exact (coalesceGo_chain pair tbin htbin tl t t h v le_rfl
      (fun x hx => hpw.1 x hx) hpw.2).1

theorem filter_flatten (p : α → Bool) :
    ∀ L : List (List α), (L.flatten).filter p = (L.map (List.filter p)).flatten
  | [] => by simp
  | l :: ls => by simp [List.filter_append, filter_flatten p ls]

theorem filter_coalesce_of_ne (a b : String) (pair : PairT) (tbin : ℤ)
    (hits : List HitT) (hne : pair ≠ (a, b)) :
    (coalesce pair tbin hits).filter
      (fun e => e.flight_a == a && e.flight_b == b) = [] := by
  rw [List.filter_eq_nil_iff]
  intro e he
  have hf := coalesce_pair pair tbin hits e he
  simp only [Bool.and_eq_true, beq_iff_eq, not_and]
  intro h1 h2
  exact hne (Prod.ext (hf.1 ▸ h1) (hf.2 ▸ h2))

theorem filter_coalesce_of_eq (a b : String) (tbin : ℤ) (hits : List HitT) :
    (coalesce (a, b) tbin hits).filter
      (fun e => e.flight_a == a && e.flight_b == b) = coalesce (a, b) tbin hits := by
  rw [List.filter_eq_self]
  intro e he
  have hf := coalesce_pair (a, b) tbin hits e he
  simp [hf.1, hf.2]

theorem chain_filter_blocks (tbin : ℤ) (htbin : 0 ≤ tbin) (a b : String) :
    ∀ L : List (PairT × List HitT), (keysOf L).Nodup →
      List.Chain' (fun x y : ConflictEvent => x.start_time ≤ y.start_time)
        (((L.map (fun e => coalesce e.1 tbin e.2)).flatten).filter
          (fun e => e.flight_a == a && e.flight_b == b)) := by
  intro L
  induction L with
  | nil => simp
  | cons e0 rest ih =>
    intro hnd
    simp only [keysOf, List.map_cons, List.nodup_cons] at hnd
    rw [List.map_cons, List.flatten_cons, List.filter_append]
    by_cases he : e0.1 = (a, b)
    · have h1 : (coalesce e0.1 tbin e0.2).filter
          (fun e => e.flight_a == a && e.flight_b == b) = coalesce e0.1 tbin e0.2 := by
        rw [he]; exact filter_coalesce_of_eq a b tbin e0.2
      have h2 : ((rest.map (fun e => coalesce e.1 tbin e.2)).flatten).filter
          (fun e => e.flight_a == a && e.flight_b == b) = [] := by
        rw [filter_flatten, List.map_map]
        rw [List.flatten_eq_nil_iff]
        intro l hl
        rcases List.mem_map.mp hl with ⟨e', he', hle⟩
        have hne : e'.1 ≠ (a, b) := by
          intro hc
          apply hnd.1
          rw [he, ← hc]
          exact List.mem_map.mpr ⟨e', he', rfl⟩
        rw [← hle]
        exact filter_coalesce_of_ne a b e'.1 tbin e'.2 hne
      rw [h1, h2, List.append_nil]
      exact coalesce_chain e0.1 tbin htbin e0.2
    · have h1 : (coalesce e0.1 tbin e0.2).filter
          (fun e => e.flight_a == a && e.flight_b == b) = [] :=
        filter_coalesce_of_ne a b e0.1 tbin e0.2 he
      rw [h1, List.nil_append]
      exact ih hnd.2

/-! ### Claim theorems -/

/-- C1: in `detect_conflicts` a proximity hit is recorded for a candidate
pair exactly when the horizontal distance is strictly below 5.0 nm and the
absolute altitude difference is strictly below 2000 ft; in particular a
pair at exactly 2000 ft vertical separation, or at exactly 5.0 nm
horizontal distance, produces no conflict (two end-to-end runs). -/
theorem C1_strict_separation :
    (∀ (h : ℚ) (v : ℤ), separationHit h v = true ↔ (h < 5 ∧ v < 2000)) ∧
    detect_conflicts (constDist 0) trajsVertEq 60 1 = [] ∧
    detect_conflicts (constDist 5) trajsHorizEq 60 1 = [] := by
  refine ⟨separationHit_iff, ?_, ?_⟩ <;> with_unfolding_all decide

/-- C6 (amended): every event emitted by `detect_conflicts` has
`flight_a < flight_b`, `start_time ≤ end_time` and `min_vertical_ft < 2000`;
the reported `min_horizontal_nm` (the strictly-sub-5 running minimum rounded
to 4 decimals) is at most 5.0 — rounding can reach exactly 5.0, so the
strict bound of the claim holds only before rounding. -/
theorem C6_amended_event_wellformed (dist : (ℚ × ℚ) → (ℚ × ℚ) → ℚ)
    (trajectories : List (String × List TrajectoryPoint)) (time_bin_sec : ℤ)
    (bucket_deg : ℚ) (htbin : 0 ≤ time_bin_sec) :
    ∀ e ∈ detect_conflicts dist trajectories time_bin_sec bucket_deg,
      e.flight_a < e.flight_b ∧ e.start_time ≤ e.end_time ∧
        e.min_vertical_ft < 2000 ∧ e.min_horizontal_nm ≤ 5 := by
  intro e he
  unfold detect_conflicts at he
  have he2 := mem_stableSort.mp he
  have hwf := conflictsPre_wf dist trajectories time_bin_sec bucket_deg htbin e he2
  obtain ⟨h1, h2, h3, h4⟩ := hwf
  exact ⟨h1, h2, by simpa [VERTICAL_THRESHOLD_FT] using h3,
    by simpa [HORIZONTAL_THRESHOLD_NM] using h4⟩

theorem C6_amended_witness :
    (0 : ℤ) ≤ 60 ∧
      ∀ e ∈ detect_conflicts (constDist 0) trajsHorizEq 60 1,
        e.flight_a < e.flight_b ∧ e.start_time ≤ e.end_time ∧
          e.min_vertical_ft < 2000 ∧ e.min_horizontal_nm ≤ 5 :=
  ⟨by norm_num,
    C6_amended_event_wellformed (constDist 0) trajsHorizEq 60 1 (by norm_num)⟩

/-- C6 counterexample: with a pair at horizontal distance 4.99999 nm
(strictly below the threshold, so a hit is recorded) the reported
`min_horizontal_nm` rounds up to exactly 5.0, refuting the claimed strict
bound `min_horizontal_nm < 5.0` on the rounded field. -/
theorem C6_counterexample_rounded :
    ∃ e ∈ detect_conflicts (constDist (499999/100000)) trajsHorizEq 60 1,
      ¬ (e.min_horizontal_nm < 5) := by
  with_unfolding_all decide

/-- C5 (amended): before the final severity sort, the events of any one
fixed flight pair appear in monotonically non-decreasing `start_time`
order; the stable severity-descending sort can reorder a pair's
different-severity events, so the property holds of `conflictsPre`, not of
the returned list. -/
theorem C5_amended_presort_chain (dist : (ℚ × ℚ) → (ℚ × ℚ) → ℚ)
    (trajectories : List (String × List TrajectoryPoint)) (time_bin_sec : ℤ)
    (bucket_deg : ℚ) (a b : String) (htbin : 0 ≤ time_bin_sec) :
    List.Chain' (fun x y => x.start_time ≤ y.start_time)
      ((conflictsPre dist trajectories time_bin_sec bucket_deg).filter
        (fun e => e.flight_a == a && e.flight_b == b)) := by
  unfold conflictsPre
  rw [foldl_append_eq]
  simp only [List.nil_append]
  exact chain_filter_blocks time_bin_sec htbin a b _
    (rawHits_rawInv dist trajectories time_bin_sec bucket_deg).1

theorem C5_amended_witness :
    (0 : ℤ) ≤ 60 ∧
      List.Chain' (fun x y => x.start_time ≤ y.start_time)
        ((conflictsPre (constDist (49/10)) trajsTwoEvents 60 1).filter
          (fun e => e.flight_a == "A" && e.flight_b == "B")) :=
  ⟨by norm_num,
    C5_amended_presort_chain (constDist (49/10)) trajsTwoEvents 60 1 "A" "B"
      (by norm_num)⟩

/-- C5 counterexample: a pair with a mild early event (severity 0.07 at
t = 0) and a severe later event (severity 1.02 at t = 200): the severity
sort puts the later event first, so in the returned list the pair's start
times appear in decreasing order. -/
theorem C5_counterexample_sorted_output :
    ¬ List.Chain' (fun x y => x.start_time ≤ y.start_time)
      ((detect_conflicts (constDist (49/10)) trajsTwoEvents 60 1).filter
        (fun e => e.flight_a == "A" && e.flight_b == "B")) := by
  have hlist : ((detect_conflicts (constDist (49/10)) trajsTwoEvents 60 1).filter
      (fun e => e.flight_a == "A" && e.flight_b == "B")).map
        (fun e => e.start_time) = [200, 0] := by
    with_unfolding_all decide
  intro hchain
  have h2 : List.Chain' (fun x y : ℤ => x ≤ y) [200, 0] := by
    rw [← hlist]
    exact (List.chain'_map _).mpr hchain
  norm_num [List.chain'_cons] at h2

theorem segmentDistances_eq_map (gc : (ℚ × ℚ) → (ℚ × ℚ) → ℚ) :
    ∀ pts : List (ℚ × ℚ), segmentDistances gc pts = (zipSegs gc pts).map Prod.fst
  | [] => rfl
  | [_] => rfl
  | a :: b :: rest => by
    rw [segmentDistances, zipSegs, List.map_cons,
      segmentDistances_eq_map gc (b :: rest)]

theorem buildGo_length (flight : FlightPlan) (lastPt : ℚ × ℚ) (adv : ℚ)
    (s : ℤ) : ∀ (n : ℕ) (elapsed : ℤ) (st : SegState),
      (buildGo flight lastPt adv s n elapsed st).length = n
  | 0, _, _ => rfl
  | n + 1, elapsed, st => by
    rw [buildGo]
    simp [buildGo_length flight lastPt adv s n]

/-- C2 (amended): `build_trajectory` with the default 60 s cadence returns at
least two points for a route of strictly positive total distance *provided*
the computed flight time `total_sec = ⌈total_nm / max(1, speed)·3600⌉` is at
least one cadence (60 s); a shorter flight yields a single sample (the loop
emits `⌊total_sec/60⌋ + 1` points). -/
theorem C2_amended_two_points (gc : (ℚ × ℚ) → (ℚ × ℚ) → ℚ)
    (flight : FlightPlan) (pts : List (ℚ × ℚ)) (h1 : 0 < totalNm gc pts)
    (h2 : 60 ≤ totalSeconds gc flight pts) :
    ∃ tr, build_trajectory gc flight pts 60 = .ok tr ∧ 2 ≤ tr.length := by
  unfold build_trajectory
  rw [if_neg (by norm_num : ¬ ((60 : ℤ) ≤ 0)), if_neg (not_le.mpr h1)]
  cases hz : zipSegs gc pts with
  | nil =>
    exfalso
    rw [totalNm, segmentDistances_eq_map, hz] at h1
    simp at h1
  | cons s0 srest =>
    obtain ⟨d0, a0, b0⟩ := s0
    refine ⟨_, rfl, ?_⟩
    rw [buildGo_length]
    have h60 : (60 : ℤ).toNat = 60 := rfl
    rw [h60]
    omega

theorem C2_amended_witness :
    0 < totalNm (constDist 60) ptsUnit ∧
      60 ≤ totalSeconds (constDist 60) flightTiny ptsUnit ∧
      ∃ tr, build_trajectory (constDist 60) flightTiny ptsUnit 60 = .ok tr ∧
        2 ≤ tr.length :=
  ⟨by with_unfolding_all decide, by with_unfolding_all decide,
    C2_amended_two_points (constDist 60) flightTiny ptsUnit
      (by with_unfolding_all decide) (by with_unfolding_all decide)⟩

/-- C2 counterexample: a route of 0.6 nm total distance (strictly positive)
flown at 360 kt has `total_sec = 6 < 60`, so the loop body runs once and the
returned trajectory has exactly one point, refuting "at least two points for
every route with positive distance". -/
theorem C2_counterexample_single_point :
    0 < totalNm (constDist (6/10)) ptsTiny ∧
      build_trajectory (constDist (6/10)) flightTiny ptsTiny 60 =
        Except.ok [⟨"T1", 0, 0, 30000, 0, some 360⟩] := by
  constructor
  · with_unfolding_all decide
  · with_unfolding_all rfl

/-- C4 (amended): the classifier scans `KNOWN_AIRCRAFT` in fixed table
(insertion) order — the first key that is a substring of the normalized
descriptor decides the category; within a family specific keys are listed
before generic ones, so e.g. any descriptor containing `boeing 787-9`
classifies via the head entry, but across families a short early key beats a
longer later one (it is not a longest-key-first scan). -/
theorem C4_amended_first_match (s : String) :
    (∀ kv : String × String,
      (normalizeType s).isEmpty = false →
      KNOWN_AIRCRAFT.find? (fun e => isSubOf e.1.toList (normalizeType s)) = some kv →
      classify_aircraft s = ((CATEGORY_TO_CONSTRAINTS.lookup kv.2).getD "jet", true)) ∧
    (isSubOf "boeing 787-9".toList (normalizeType s) = true →
      classify_aircraft s = ("jet", true)) := by
  constructor
  · intro kv hne hfind
    unfold classify_aircraft
    rw [if_neg (by simp [hne]), hfind]
  · intro hsub
    have hne : (normalizeType s).isEmpty = false := by
      cases hn : normalizeType s with
      | nil =>
        rw [hn] at hsub
        exact absurd hsub (by with_unfolding_all decide)
      | cons c cs => rfl
    have hfind : KNOWN_AIRCRAFT.find?
        (fun e => isSubOf e.1.toList (normalizeType s)) =
        some ("boeing 787-9", "widebody") := by
      rw [KNOWN_AIRCRAFT]
      exact List.find?_cons_of_pos _ hsub
    unfold classify_aircraft
    rw [if_neg (by simp [hne]), hfind]
    with_unfolding_all rfl

theorem C4_amended_witness :
    ((normalizeType "boeing 787-9").isEmpty = false ∧
      KNOWN_AIRCRAFT.find?
        (fun e => isSubOf e.1.toList (normalizeType "boeing 787-9")) =
        some ("boeing 787-9", "widebody") ∧
      classify_aircraft "boeing 787-9" =
        ((CATEGORY_TO_CONSTRAINTS.lookup "widebody").getD "jet", true)) ∧
    (isSubOf "boeing 787-9".toList (normalizeType "boeing 787-9") = true ∧
      classify_aircraft "boeing 787-9" = ("jet", true)) := by
  have h1 : (normalizeType "boeing 787-9").isEmpty = false := by
    with_unfolding_all decide
  have h2 : KNOWN_AIRCRAFT.find?
      (fun e => isSubOf e.1.toList (normalizeType "boeing 787-9")) =
      some ("boeing 787-9", "widebody") := by
    with_unfolding_all decide
  have h3 : isSubOf "boeing 787-9".toList (normalizeType "boeing 787-9") = true := by
    with_unfolding_all decide
  exact ⟨⟨h1, h2, (C4_amended_first_match "boeing 787-9").1 _ h1 h2⟩,
    ⟨h3, (C4_amended_first_match "boeing 787-9").2 h3⟩⟩

/-- C4 counterexample: on the descriptor `embraer e195-e2 787` the code's
insertion-order scan matches the early widebody key `787` and returns
(`jet`, matched), while the longest matching key `embraer e195-e2`
(regional) would give (`turboprop`, matched) — so the longest key does not
determine the category. -/
theorem C4_counterexample_order :
    classify_aircraft "embraer e195-e2 787" = ("jet", true) ∧
    classifySpecLongest "embraer e195-e2 787" = ("turboprop", true) := by
  constructor <;> with_unfolding_all decide

theorem validate_eq_nil_iff (f : FlightPlan) :
    validate_flight_plan f = [] ↔
      ((classify_aircraft f.plane_type).2 = true ∧
        (constraintsFor (classify_aircraft f.plane_type).1).min_speed_kt ≤ f.speed_kt ∧
        f.speed_kt ≤ (constraintsFor (classify_aircraft f.plane_type).1).max_speed_kt ∧
        (constraintsFor (classify_aircraft f.plane_type).1).min_altitude_ft ≤ f.altitude_ft ∧
        f.altitude_ft ≤ (constraintsFor (classify_aircraft f.plane_type).1).max_altitude_ft) := by
  simp only [validate_flight_plan]
  split_ifs with h1 h2 h3 <;> simp_all <;> omega

theorem generateCandidates_alt_mem (fid : String) (f : FlightPlan) (d : ℤ) :
    (∃ c ∈ generateCandidates fid f, c.action_type = "altitude" ∧
      c.delta_altitude_ft = some d) ↔
      (d ∈ ALTITUDE_STEPS ∧ valid_with_delta f d 0 = true) := by
  unfold generateCandidates
  constructor
  · rintro ⟨c, hc, hact, hd⟩
    rcases List.mem_append.mp hc with hc | hc4
    rcases List.mem_append.mp hc with hc | hc3
    rcases List.mem_append.mp hc with hc1 | hc2
    · obtain ⟨d', hd', rfl⟩ := List.mem_map.mp hc1
      obtain ⟨hmem, hval⟩ := List.mem_filter.mp hd'
      simp only [mkCandidate, Option.some.injEq] at hd
      exact ⟨hd ▸ hmem, hd ▸ hval⟩
    · obtain ⟨d', hd', rfl⟩ := List.mem_map.mp hc2
      exact absurd hact (by simp [mkCandidate])
    · obtain ⟨d', hd', rfl⟩ := List.mem_map.mp hc3
      exact absurd hact (by simp [mkCandidate])
    · by_cases hr : f.route = ""
      · rw [if_neg (by simp [hr])] at hc4
        simp at hc4
      · rw [if_pos hr] at hc4
        rw [List.mem_singleton] at hc4
        subst hc4
        exact absurd hact (by simp [mkCandidate])
  · rintro ⟨hmem, hval⟩
    refine ⟨mkCandidate fid "altitude"
      ("Change altitude by " ++ signedStr d ++ " ft") (some d) none none none,
      ?_, rfl, rfl⟩
    refine List.mem_append.mpr (Or.inl (List.mem_append.mpr (Or.inl
      (List.mem_append.mpr (Or.inl ?_)))))
    exact List.mem_map.mpr ⟨d, List.mem_filter.mpr ⟨hmem, hval⟩, rfl⟩

theorem generateCandidates_speed_mem (fid : String) (f : FlightPlan) (d : ℤ) :
    (∃ c ∈ generateCandidates fid f, c.action_type = "speed" ∧
      c.delta_speed_kt = some d) ↔
      (d ∈ SPEED_STEPS ∧ valid_with_delta f 0 d = true) := by
  unfold generateCandidates
  constructor
  · rintro ⟨c, hc, hact, hd⟩
    rcases List.mem_append.mp hc with hc | hc4
    rcases List.mem_append.mp hc with hc | hc3
    rcases List.mem_append.mp hc with hc1 | hc2
    · obtain ⟨d', hd', rfl⟩ := List.mem_map.mp hc1
      exact absurd hact (by simp [mkCandidate])
    · obtain ⟨d', hd', rfl⟩ := List.mem_map.mp hc2
      obtain ⟨hmem, hval⟩ := List.mem_filter.mp hd'
      simp only [mkCandidate, Option.some.injEq] at hd
      exact ⟨hd ▸ hmem, hd ▸ hval⟩
    · obtain ⟨d', hd', rfl⟩ := List.mem_map.mp hc3
      exact absurd hact (by simp [mkCandidate])
    · by_cases hr : f.route = ""
      · rw [if_neg (by simp [hr])] at hc4
        simp at hc4
      · rw [if_pos hr] at hc4
        rw [List.mem_singleton] at hc4
        subst hc4
        exact absurd hact (by simp [mkCandidate])
  · rintro ⟨hmem, hval⟩
    refine ⟨mkCandidate fid "speed"
      ("Change speed by " ++ signedStr d ++ " kt") none (some d) none none,
      ?_, rfl, rfl⟩
    refine List.mem_append.mpr (Or.inl (List.mem_append.mpr (Or.inl
      (List.mem_append.mpr (Or.inr ?_)))))
    exact List.mem_map.mpr ⟨d, List.mem_filter.mpr ⟨hmem, hval⟩, rfl⟩

/-- C3 (amended): an altitude candidate with delta `d` is generated exactly
when `d` is one of the four altitude steps and the *updated copy passes full
validation* — i.e. the descriptor is recognized by the classifier, the
resulting altitude is within the constraint band, and the flight's
(unchanged) speed is also within the band; symmetrically for speed
candidates.  Being within the altitude band alone is not sufficient. -/
theorem C3_amended_candidate_iff (f : FlightPlan) (fid : String) (d : ℤ) :
    ((∃ c ∈ generateCandidates fid f, c.action_type = "altitude" ∧
        c.delta_altitude_ft = some d) ↔
      (d ∈ ALTITUDE_STEPS ∧ validate_flight_plan (copyWithDeltas f d 0) = [])) ∧
    ((∃ c ∈ generateCandidates fid f, c.action_type = "speed" ∧
        c.delta_speed_kt = some d) ↔
      (d ∈ SPEED_STEPS ∧ validate_flight_plan (copyWithDeltas f 0 d) = [])) ∧
    (∀ g : FlightPlan, validate_flight_plan g = [] ↔
      ((classify_aircraft g.plane_type).2 = true ∧
        (constraintsFor (classify_aircraft g.plane_type).1).min_speed_kt ≤ g.speed_kt ∧
        g.speed_kt ≤ (constraintsFor (classify_aircraft g.plane_type).1).max_speed_kt ∧
        (constraintsFor (classify_aircraft g.plane_type).1).min_altitude_ft ≤ g.altitude_ft ∧
        g.altitude_ft ≤ (constraintsFor (classify_aircraft g.plane_type).1).max_altitude_ft)) := by
  refine ⟨?_, ?_, validate_eq_nil_iff⟩
  · rw [generateCandidates_alt_mem]
    simp [valid_with_delta, List.isEmpty_iff]
  · rw [generateCandidates_speed_mem]
    simp [valid_with_delta, List.isEmpty_iff]

theorem C3_amended_witness :
    (((2000 : ℤ) ∈ ALTITUDE_STEPS ∧
      validate_flight_plan (copyWithDeltas flightOk737 2000 0) = [])) ∧
    (∃ c ∈ generateCandidates "F2" flightOk737, c.action_type = "altitude" ∧
      c.delta_altitude_ft = some 2000) :=
  ⟨⟨by with_unfolding_all decide, by with_unfolding_all rfl⟩,
    ((C3_amended_candidate_iff flightOk737 "F2" 2000).1).mpr
      ⟨by with_unfolding_all decide, by with_unfolding_all rfl⟩⟩

/-- C3 counterexample: `flightFast737` ("boeing 737", altitude 30000 ft,
speed 600 kt) participates with its altitude + 2000 ft inside the jet band
[10000, 45000], yet no altitude candidate with delta +2000 is generated,
because the full validation of the copy also rejects the (unchanged)
out-of-band speed 600 kt — refuting "exactly when altitude + d lies within
the band". -/
theorem C3_counterexample_speed_out_of_band :
    ((constraintsFor (classify_aircraft flightFast737.plane_type).1).min_altitude_ft ≤
        flightFast737.altitude_ft + 2000 ∧
      flightFast737.altitude_ft + 2000 ≤
        (constraintsFor (classify_aircraft flightFast737.plane_type).1).max_altitude_ft) ∧
    ¬ (∃ c ∈ generateCandidates "F1" flightFast737, c.action_type = "altitude" ∧
        c.delta_altitude_ft = some 2000) := by
  constructor
  · with_unfolding_all decide
  · with_unfolding_all decide

theorem splitWsGo_all_ws :
    ∀ l : List Char, (∀ c ∈ l, isWs c = true) → splitWsGo l [] = []
  | [], _ => rfl
  | c :: cs, h => by
    have hc := h c (List.mem_cons_self _ _)
    rw [splitWsGo]
    simp only [hc, if_true, List.isEmpty_nil]
    exact splitWsGo_all_ws cs (fun x hx => h x (List.mem_cons_of_mem _ hx))

theorem all_ws_false_of_splitWs {l t : List Char} {rest : List (List Char)}
    (h : splitWs l = t :: rest) : l.all isWs = false := by
  cases hall : l.all isWs
  · rfl
  · exfalso
    have h0 : splitWs l = [] :=
      splitWsGo_all_ws l (by simpa [List.all_eq_true] using hall)
    rw [h0] at h
    cases h

/-- C7: on a route string whose whitespace split yields exactly one valid
waypoint token, `parse_route` returns [departure, waypoint, arrival] when
both airports resolve, a two-point route when exactly one resolves, and
fails when neither resolves. -/
theorem C7_single_waypoint_expansion (airports : String → Option (ℚ × ℚ))
    (s : String) (tok : List Char) (w dc ac : ℚ × ℚ) (dep arr : Option String)
    (hsplit : splitWs s.toList = [tok])
    (hparse : parse_waypoint (String.mk tok) = .ok w) :
    (get_airport_coords airports dep = some dc →
      get_airport_coords airports arr = some ac →
      parse_route airports s dep arr = .ok [dc, w, ac]) ∧
    (get_airport_coords airports dep = some dc →
      get_airport_coords airports arr = none →
      parse_route airports s dep arr = .ok [dc, w]) ∧
    (get_airport_coords airports dep = none →
      get_airport_coords airports arr = some ac →
      parse_route airports s dep arr = .ok [w, ac]) ∧
    (get_airport_coords airports dep = none →
      get_airport_coords airports arr = none →
      ∃ msg, parse_route airports s dep arr = .error msg) := by
  have hall : s.toList.all isWs = false := all_ws_false_of_splitWs hsplit
  have hmap : (splitWs s.toList).mapM (fun tk => parse_waypoint (String.mk tk)) =
      Except.ok [w] := by
    rw [hsplit]
    simp [List.mapM, List.mapM.loop, hparse]
  unfold parse_route
  rw [if_neg (by simp only [Bool.not_eq_true]; exact hall)]
  refine ⟨?_, ?_, ?_, ?_⟩ <;> intro h1 h2 <;>
    simp only [bind, Except.bind, hmap, h1, h2]
  · rfl
  · rfl
  · rfl
  · exact ⟨_, rfl⟩

theorem C7_witness :
    (splitWs ("43.68N/79.62W".toList) = ["43.68N/79.62W".toList] ∧
      parse_waypoint (String.mk "43.68N/79.62W".toList) = .ok (43.68, -79.62) ∧
      get_airport_coords airportsYYZUL (some "CYYZ") = some (43.6777, -79.6248) ∧
      get_airport_coords airportsYYZUL (some "CYUL") = some (45.4706, -73.7408)) ∧
    parse_route airportsYYZUL "43.68N/79.62W" (some "CYYZ") (some "CYUL") =
      .ok [(43.6777, -79.6248), (43.68, -79.62), (45.4706, -73.7408)] := by
  have h1 : splitWs ("43.68N/79.62W".toList) = ["43.68N/79.62W".toList] := by
    with_unfolding_all rfl
  have h2 : parse_waypoint (String.mk "43.68N/79.62W".toList) = .ok (43.68, -79.62) := by
    with_unfolding_all rfl
  have h3 : get_airport_coords airportsYYZUL (some "CYYZ") = some (43.6777, -79.6248) := by
    with_unfolding_all rfl
  have h4 : get_airport_coords airportsYYZUL (some "CYUL") = some (45.4706, -73.7408) := by
    with_unfolding_all rfl
  exact ⟨⟨h1, h2, h3, h4⟩,
    (C7_single_waypoint_expansion airportsYYZUL "43.68N/79.62W"
      ("43.68N/79.62W".toList) (43.68, -79.62) (43.6777, -79.6248)
      (45.4706, -73.7408) (some "CYYZ") (some "CYUL") h1 h2).1 h3 h4⟩

theorem parseUDecimal_nonneg (l : List Char) (q : ℚ) (rest : List Char)
    (h : parseUDecimal l = some (q, rest)) : 0 ≤ q := by
  simp only [parseUDecimal] at h
  split at h
  · cases h
  · split at h
    · split at h
      · cases h
      · simp only [Option.some.injEq, Prod.mk.injEq] at h
        rw [← h.1]
        positivity
    · simp only [Option.some.injEq, Prod.mk.injEq] at h
      rw [← h.1]
      positivity

theorem parseWaypointRaw_nonneg (tok : List Char) (mlat mlon : ℚ)
    (south west : Bool)
    (h : parseWaypointRaw tok = some (mlat, south, mlon, west)) :
    0 ≤ mlat ∧ 0 ≤ mlon := by
  unfold parseWaypointRaw at h
  split at h
  · cases h
  · rename_i latMag rest h1
    split at h
    · rename_i c1 rest2
      split at h
      · split at h
        · cases h
        · rename_i lonMag rest3 h2
          split at h
          · rename_i c2
            split at h
            · simp only [Option.some.injEq, Prod.mk.injEq] at h
              obtain ⟨ha, _, hb, _⟩ := h
              exact ⟨ha ▸ parseUDecimal_nonneg tok latMag (c1 :: '/' :: rest2) h1,
                hb ▸ parseUDecimal_nonneg rest2 lonMag [c2] h2⟩
            · cases h
          · cases h
      · cases h
    · cases h

/-- C9 (amended): `parse_waypoint` performs no range validation; for every
token the regex accepts, the returned pair lies in latitude [-90, 90] and
longitude [-180, 180] *exactly when* the token's unsigned degree magnitudes
are at most 90 and 180 (the `N`/`S` and `E`/`W` suffixes only choose the
sign, and the magnitudes are non-negative by construction). -/
theorem C9_amended_range (t : String) (mlat mlon : ℚ) (south west : Bool)
    (h : parseWaypointRaw (trimWs t.toList) = some (mlat, south, mlon, west)) :
    ∃ la lo, parse_waypoint t = .ok (la, lo) ∧
      ((-90 ≤ la ∧ la ≤ 90 ∧ -180 ≤ lo ∧ lo ≤ 180) ↔ (mlat ≤ 90 ∧ mlon ≤ 180)) := by
  obtain ⟨hn1, hn2⟩ := parseWaypointRaw_nonneg _ _ _ _ _ h
  unfold parse_waypoint
  rw [h]
  refine ⟨_, _, rfl, ?_⟩
  constructor
  · rintro ⟨h1, h2, h3, h4⟩
    constructor
    · cases south <;> simp at h1 h2 <;> linarith
    · cases west <;> simp at h3 h4 <;> linarith
  · rintro ⟨h1, h2⟩
    refine ⟨?_, ?_, ?_, ?_⟩
    · cases south <;> simp <;> linarith
    · cases south <;> simp <;> linarith
    · cases west <;> simp <;> linarith
    · cases west <;> simp <;> linarith

theorem C9_amended_witness :
    (parseWaypointRaw (trimWs "43.68N/79.62W".toList) =
        some (43.68, false, 79.62, true)) ∧
    ∃ la lo, parse_waypoint "43.68N/79.62W" = .ok (la, lo) ∧
      ((-90 ≤ la ∧ la ≤ 90 ∧ -180 ≤ lo ∧ lo ≤ 180) ↔
        ((43.68 : ℚ) ≤ 90 ∧ (79.62 : ℚ) ≤ 180)) := by
  have h1 : parseWaypointRaw (trimWs "43.68N/79.62W".toList) =
      some (43.68, false, 79.62, true) := by
    with_unfolding_all rfl
  exact ⟨h1, C9_amended_range "43.68N/79.62W" 43.68 79.62 false true h1⟩

/-- C9 counterexample: the token `91N/0E` parses successfully to latitude
91, which is outside [-90, 90] — the parser enforces no range bound. -/
theorem C9_counterexample_91N :
    parse_waypoint "91N/0E" = .ok (91, 0) ∧ ¬ ((91 : ℚ) ≤ 90) := by
  constructor
  · with_unfolding_all rfl
  · norm_num

theorem mkHotspot_score (cfg : HotspotConfig) (key : ℤ × ℤ × ℤ)
    (st : CellStats) (c : HotspotCell) (h : mkHotspot cfg key st = some c) :
    c.score = round4 (0.6 * (c.peak_density : ℚ) + 0.3 * (c.unique_flights : ℚ) +
      0.1 * (c.occupancy_minutes : ℚ)) := by
  unfold mkHotspot at h
  cases hs : stableSort intKeep st.time_bins with
  | nil => rw [hs] at h; cases h
  | cons tb0 rest =>
    rw [hs] at h
    simp only [Option.some.injEq] at h
    subst h
    refine congrArg round4 ?_
    push_cast
    ring

/-- C8: `detect_hotspots` returns at most `top_n` cells, sorted by score
descending, and every returned cell's score equals
`round4(0.6·peak_density + 0.3·unique_flights + 0.1·occupancy_minutes)`. -/
theorem C8_hotspots_shape (trajectories : List (String × List TrajectoryPoint))
    (cfg : HotspotConfig) :
    (detect_hotspots trajectories cfg).length ≤ cfg.top_n ∧
    (detect_hotspots trajectories cfg).Pairwise (fun x y => y.score ≤ x.score) ∧
    ∀ c ∈ detect_hotspots trajectories cfg,
      c.score = round4 (0.6 * (c.peak_density : ℚ) + 0.3 * (c.unique_flights : ℚ) +
        0.1 * (c.occupancy_minutes : ℚ)) := by
  refine ⟨?_, ?_, ?_⟩
  · unfold detect_hotspots
    exact List.length_take_le _ _
  · unfold detect_hotspots
    refine List.Pairwise.sublist (List.take_sublist _ _) ?_
    refine List.Pairwise.imp (fun hk => by simpa [scoreKeep] using hk)
      (stableSort_pairwise scoreKeep
        (fun a b => by simpa [scoreKeep] using le_total b.score a.score)
        (fun a b c hab hbc => by
          simp only [scoreKeep, decide_eq_true_eq] at hab hbc ⊢
          exact le_trans hbc hab) _)
  · have hall : ∀ x ∈ (cellStatsOf (occupancyOf cfg trajectories)).foldl
        (fun acc e => match mkHotspot cfg e.1 e.2 with
          | none => acc
          | some c => acc ++ [c]) [],
        x.score = round4 (0.6 * (x.peak_density : ℚ) + 0.3 * (x.unique_flights : ℚ) +
          0.1 * (x.occupancy_minutes : ℚ)) := by
      refine foldl_preserve (fun acc : List HotspotCell => ∀ x ∈ acc,
        x.score = round4 (0.6 * (x.peak_density : ℚ) + 0.3 * (x.unique_flights : ℚ) +
          0.1 * (x.occupancy_minutes : ℚ))) _ ?_ _ [] (by simp)
      intro acc e hacc x hx
      cases hm : mkHotspot cfg e.1 e.2 with
      | none => simp only [hm] at hx; exact hacc x hx
      | some c2 =>
        simp only [hm] at hx
        rcases List.mem_append.mp hx with hx | hx
        · exact hacc x hx
        · rw [List.mem_singleton] at hx
          subst hx
          exact mkHotspot_score cfg e.1 e.2 x hm
    intro c hc
    unfold detect_hotspots at hc
    exact hall c (mem_stableSort.mp (List.mem_of_mem_take hc))

theorem proposeForFlight_store (conflict : ConflictEvent)
    (flights : List (String × FlightPlan))
    (proposals : List (String × List ResolutionCandidate)) (flight_id : String) :
    (proposeForFlight conflict flights proposals flight_id).2 = flights := by
  unfold proposeForFlight
  split <;> rfl

/-- C10: `propose_resolutions` never mutates the flight store: the store it
returns (threaded through every constraint check, which validates a fresh
copy) is exactly the input store, so every flight's altitude, speed, route
and departure time after the call equal their values before it. -/
theorem C10_no_mutation (conflicts : List ConflictEvent)
    (flights : List (String × FlightPlan)) :
    (propose_resolutions conflicts flights).2 = flights ∧
    ∀ acid : String,
      (propose_resolutions conflicts flights).2.lookup acid = flights.lookup acid := by
  have h : (propose_resolutions conflicts flights).2 = flights := by
    unfold propose_resolutions
    refine foldl_preserve (fun st : List (String × List ResolutionCandidate) ×
      List (String × FlightPlan) => st.2 = flights) _ ?_ conflicts ([], flights) rfl
    intro st c hst
    simp only [proposeForFlight_store]
    exact hst
  exact ⟨h, fun acid => by rw [h]⟩

end AeroIntel
